import Mathlib

/-!
Verification of the libGPUCounters specification compiler (lgcpy).

This file gives a shallow embedding of the equation pretty-printer, the
recursive equation resolver, the per-product IndexedView builder and filter,
the clock-domain computation of CounterView, the stable-ID validator, the
domain-cardinality validator, and the semantic-info documentation lookup, all
translated from src/specification.  Numeric literal values are modelled as
exact fractions; every theorem that folds two literals arithmetically
restricts its operands, through explicit hypotheses, to unsigned integer
numerals in ranges where IEEE double arithmetic is exact (factors and product
below 2^53 for a product; a nonzero divisor and operands below 2^52 for a
quotient, where the double quotient is an integer exactly when the division
is exact), so the exact value coincides with the double the Python
implementation computes.  The hardware-layout data structures (hardwarelayout.py) and
the textual grammar file are not part of the sources and are modelled from
the specification where needed, as marked in the corresponding doc comments.
-/

/-! ## Small utilities: association lists with Python dict semantics -/

/-- Insertion with Python dict semantics: replacing an existing key keeps its
position, a new key is appended at the end. -/
def dictInsert {β : Type} (k : String) (v : β) : List (String × β) → List (String × β)
  | [] => [(k, v)]
  | (k0, v0) :: t => if k0 = k then (k, v) :: t else (k0, v0) :: dictInsert k v t

/-- Lookup in an association list, first binding wins (keys are unique by
construction, as in a Python dict). -/
def dictGet {β : Type} (k : String) (d : List (String × β)) : Option β :=
  (d.find? (fun p => p.1 = k)).map Prod.snd

/-- Insertion for Nat-keyed dicts (same Python dict semantics). -/
def dictInsertN {β : Type} (k : Nat) (v : β) : List (Nat × β) → List (Nat × β)
  | [] => [(k, v)]
  | (k0, v0) :: t => if k0 = k then (k, v) :: t else (k0, v0) :: dictInsertN k v t

/-- Lookup for Nat-keyed dicts. -/
def dictGetN {β : Type} (k : Nat) (d : List (Nat × β)) : Option β :=
  (d.find? (fun p => p.1 = k)).map Prod.snd

/-- The separator join used by FunctionNode: comma plus space between the
rendered parameters. -/
def joinComma : List String → String
  | [] => ""
  | [s] => s
  | s :: t => s ++ ", " ++ joinComma t

/-! ## Numeric literal model

The Python code tests and converts literal strings with float(); within this
pipeline the only strings that parse are the unsigned decimal numerals coming
from equation tokens and from to_literal, so the model recognises exactly the
forms digits, digits.digits, digits. and .digits, and maps them to exact
rational values. -/

/-- Value of a digit string, most significant first. -/
def digitsVal (cs : List Char) : Nat :=
  cs.foldl (fun acc c => acc * 10 + (c.toNat - 48)) 0

/-- Check that every character is an ASCII digit. -/
def allDigits (cs : List Char) : Bool :=
  cs.all Char.isDigit

/-- An exact fraction, used to model the float values flowing through the
peephole optimiser.  The representation is not normalised; only the exact
value matters.  Python computes with IEEE doubles instead, so every theorem
folding literals through this type carries hypotheses confining the operands
to ranges where the double result equals the exact value. -/
structure PyFloat where
  num : Int
  den : Nat
  deriving DecidableEq

/-- Exact product of two fraction values. -/
def PyFloat.fmul (a b : PyFloat) : PyFloat :=
  ⟨a.num * b.num, a.den * b.den⟩

/-- Exact quotient of two fraction values.  A zero divisor raises
ZeroDivisionError in Python; the theorems folding quotients exclude it by
hypothesis, so no statement below touches that case. -/
def PyFloat.fdiv (a b : PyFloat) : PyFloat :=
  ⟨a.num * (b.den : Int), a.den * b.num.natAbs⟩

/-- Split a character list at the first decimal point, if any. -/
def breakDot : List Char → (List Char × Option (List Char))
  | [] => ([], none)
  | c :: t =>
    if c = '.' then ([], some t)
    else
      let (a, b) := breakDot t
      (c :: a, b)

/-- Model of Python float() on the unsigned decimal numerals arising in this
pipeline.  Returns the exact fraction value, or none when the string is not a
numeral (names, operator expressions, function calls). -/
def parseNum (s : String) : Option PyFloat :=
  match breakDot s.toList with
  | (a, none) => if a ≠ [] && allDigits a then some ⟨digitsVal a, 1⟩ else none
  | (a, some b) =>
    if !b.contains '.' && (a ≠ [] || b ≠ []) && allDigits a && allDigits b then
      some ⟨digitsVal a * 10 ^ b.length + digitsVal b, 10 ^ b.length⟩
    else none

/-- Model of equationutils.is_number on literal strings. -/
def is_number (s : String) : Bool :=
  (parseNum s).isSome

/-- An apostrophe character, kept out of string literals. -/
def apos : Char := Char.ofNat 39

/-- The string produced by the Python expression str(float): the repr of the
float type object itself.  equationutils.to_literal returns this constant in
its non-integer branch (the code says return str(float), not
str(float(value))). -/
def pyFloatTypeStr : String :=
  "<class " ++ String.singleton apos ++ "float" ++ String.singleton apos ++ ">"

/-- Model of equationutils.to_literal: an integral value is rendered as the
decimal integer string; a non-integral value falls into the buggy branch that
returns str(float), the repr of the float type. -/
def to_literal (value : PyFloat) : String :=
  if value.num % (value.den : Int) = 0 then toString (value.num / (value.den : Int))
  else pyFloatTypeStr

/-- ASCII lower-casing of a character, as str.lower acts on the ASCII names
used throughout the databases. -/
def charToLower (c : Char) : Char :=
  if 65 ≤ c.toNat && c.toNat ≤ 90 then Char.ofNat (c.toNat + 32) else c

/-- ASCII lower-casing of a string (the model of str.lower). -/
def strToLower (s : String) : String :=
  String.mk (s.toList.map charToLower)

/-! ## Equation ASTs

The Lark parse trees are modelled as a closed sum: numeric literal tokens,
name tokens (wrapped by the name grammar rule), additive nodes, multiplicative
nodes, and variadic function calls (min/max and arbitrary-name calls).  The
operator string is the token sitting between the operands (one of + - for add
nodes and * / for mul nodes in grammar-produced trees).  The argument list of
a call uses a mutually defined list type so that all recursions below are
structural. -/

mutual

inductive EqAst where
  | num (s : String)
  | name (s : String)
  | add (a : EqAst) (op : String) (b : EqAst)
  | mul (a : EqAst) (op : String) (b : EqAst)
  | call (f : String) (args : EqArgs)

inductive EqArgs where
  | nil
  | cons (head : EqAst) (tail : EqArgs)

end

mutual

/-- All name-token leaves of a tree, in left-to-right order.  This is what
find_data of the name rule reaches after a resolve pass (name nodes whose
child is a substituted subtree stringify with parentheses and are skipped by
the consumers, so only token leaves matter). -/
def namesOf : EqAst → List String
  | .num _ => []
  | .name s => [s]
  | .add a _ b => namesOf a ++ namesOf b
  | .mul a _ b => namesOf a ++ namesOf b
  | .call _ args => namesOfArgs args

/-- Name-token leaves of an argument list. -/
def namesOfArgs : EqArgs → List String
  | .nil => []
  | .cons a t => namesOf a ++ namesOfArgs t

end

/-! ## Pretty printer (EquationPrettyPrintTransformer)

The transformer rewrites the tree bottom-up into plain strings, OperatorNode
values and FunctionNode values; OperatorNode keeps its operands (already
parenthesised where needed) so that parent nodes can inspect them. -/

inductive PPVal where
  | str (s : String)
  | opNode (operator : String) (precedence : Nat) (op_a op_b : PPVal) (string : String)
  | fnNode (function : String) (string : String)
  deriving DecidableEq

namespace PPVal

/-- The str() form of a transformer value. -/
def toStr : PPVal → String
  | .str s => s
  | .opNode _ _ _ _ s => s
  | .fnNode _ s => s

end PPVal

namespace OperatorNode

/-- OperatorNode.needs_parens: parentheses are needed exactly when the operand
is an operator node whose operator or precedence differs from the parent
values.  Only called on operator-node operands in the source; on other values
the isinstance guard in add_parens makes it unreachable, modelled as false. -/
def needs_parens (operator : String) (precedence : Nat) (operand : PPVal) : Bool :=
  match operand with
  | .opNode o p _ _ _ => operator ≠ o || precedence ≠ p
  | _ => false

/-- OperatorNode.add_parens: wrap an operator-node operand in parentheses when
needs_parens holds; all other operands pass through unchanged. -/
def add_parens (operator : String) (precedence : Nat) (operand : PPVal) : PPVal :=
  match operand with
  | .opNode _ _ _ _ s =>
    if needs_parens operator precedence operand then .str ("(" ++ s ++ ")") else operand
  | _ => operand

/-- OperatorNode construction: parenthesise both operands against the new
node, then render the infix string. -/
def make (op_a : PPVal) (operator : String) (op_b : PPVal) (precedence : Nat) : PPVal :=
  let a := add_parens operator precedence op_a
  let b := add_parens operator precedence op_b
  .opNode operator precedence a b (a.toStr ++ " " ++ operator ++ " " ++ b.toStr)

end OperatorNode

namespace EquationPrettyPrintTransformer

/-- Python compares an operand against the string 1; only plain strings can be
equal to it (operator and function nodes have default object equality). -/
def isLitOne : PPVal → Bool
  | .str s => s = "1"
  | _ => false

/-- The numeric value of an operand under is_number and float conversion;
operator and function node strings always contain an operator token or a
parenthesis and never parse as floats. -/
def ppNum (v : PPVal) : Option PyFloat :=
  match v with
  | .str s => parseNum s
  | _ => none

/-- EquationPrettyPrintTransformer._simplify_mul_str_str: fold a product or
quotient of two numeric literal strings into a single literal via to_literal.
Division by a zero literal raises ZeroDivisionError in Python; the rational
model returns to_literal 0 there, and no theorem below relies on that case. -/
def simplify_mul_str_str (operand_a : PPVal) (operator : String) (operand_b : PPVal) :
    Option PPVal :=
  match operand_a, operand_b with
  | .str sa, .str sb =>
    match parseNum sa, parseNum sb with
    | some na, some nb =>
      if operator = "*" then some (.str (to_literal (na.fmul nb)))
      else some (.str (to_literal (na.fdiv nb)))
    | _, _ => none
  | _, _ => none

/-- EquationPrettyPrintTransformer._simplify_mul_op_str: re-associate
(a star lit1) star lit2 into a star to_literal (lit1 times lit2) when both
multiplications use the star operator. -/
def simplify_mul_op_str (operand_a : PPVal) (operator : String) (operand_b : PPVal) :
    Option PPVal :=
  match operand_a, operand_b with
  | .opNode aop _ a_opa a_opb _, .str sb =>
    match ppNum a_opb, parseNum sb with
    | some na, some nb =>
      if aop = "*" && operator = "*" then
        some (OperatorNode.make a_opa "*" (.str (to_literal (na.fmul nb))) 1)
      else none
    | _, _ => none
  | _, _ => none

/-- EquationPrettyPrintTransformer.mul: the multiplicative grammar rule with
its peephole simplifications, in source order.  The first rule hides x op 1
for both * and /; the second hides 1 * y; then literal folding; then the
re-association; otherwise a plain operator node of precedence 1. -/
def mul (operand_a : PPVal) (operator : String) (operand_b : PPVal) : PPVal :=
  if isLitOne operand_b then operand_a
  else if operator = "*" && isLitOne operand_a then operand_b
  else
    match simplify_mul_str_str operand_a operator operand_b with
    | some v => v
    | none =>
      match simplify_mul_op_str operand_a operator operand_b with
      | some v => v
      | none => OperatorNode.make operand_a operator operand_b 1

/-- EquationPrettyPrintTransformer.add: the additive grammar rule, a plain
operator node of precedence 0. -/
def add (operand_a : PPVal) (operator : String) (operand_b : PPVal) : PPVal :=
  OperatorNode.make operand_a operator operand_b 0

end EquationPrettyPrintTransformer

mutual

/-- Bottom-up application of EquationPrettyPrintTransformer to a tree. -/
def ppTransform : EqAst → PPVal
  | .num s => .str s
  | .name s => .str s
  | .add a op b => EquationPrettyPrintTransformer.add (ppTransform a) op (ppTransform b)
  | .mul a op b => EquationPrettyPrintTransformer.mul (ppTransform a) op (ppTransform b)
  | .call f args => .fnNode f (f ++ "(" ++ joinComma (ppTransformArgs args) ++ ")")

/-- Render each function parameter to its string form, as FunctionNode does. -/
def ppTransformArgs : EqArgs → List String
  | .nil => []
  | .cons a t => (ppTransform a).toStr :: ppTransformArgs t

end

/-- equationutils.equation_ast_to_string: transform and take the string. -/
def equation_ast_to_string (ast : EqAst) : String :=
  (ppTransform ast).toStr

/-! ## Counter data model (counterinfo.py, productinfo.py, hardware layout) -/

/-- CounterVisibility enumeration with its numeric values. -/
inductive CounterVisibility where
  | NOVICE
  | ADVANCED_APPLICATION
  | ADVANCED_SYSTEM
  | INTERNAL
  deriving DecidableEq

/-- Numeric value of a visibility level, as in the Python enum. -/
def CounterVisibility.value : CounterVisibility → Nat
  | .NOVICE => 1
  | .ADVANCED_APPLICATION => 2
  | .ADVANCED_SYSTEM => 3
  | .INTERNAL => 4

/-- CounterClockDomain enumeration. -/
inductive CounterClockDomain where
  | GPU
  | SHADER_CORE
  deriving DecidableEq

/-- Modelled from the spec: hardwarelayout.py is not among the sources; the
specification lists the hardware block kinds as front-end, tiler, memory
system and shader core, which are exactly the members that the validator maps
to cardinality domains. -/
inductive HardwareBlockType where
  | GPU_FRONTEND
  | TILER
  | MEMORY_SYSTEM
  | SHADER_CORE
  deriving DecidableEq

/-- Modelled from the spec: a hardware counter slot is a (name, shift) pair at
an index inside its block. -/
structure HardwareCounterLayout where
  name : String
  index : Nat
  shift : Nat
  deriving DecidableEq

/-- Modelled from the spec: a hardware block is an ordered list of counter
slots with a block type and a bank discriminator. -/
structure HardwareBlockLayout where
  btype : HardwareBlockType
  bank : Nat
  counters : List HardwareCounterLayout
  deriving DecidableEq

/-- Modelled from the spec: the per-product hardware layout is the ordered
list of blocks. -/
structure HardwareLayout where
  blocks : List HardwareBlockLayout

/-- Modelled from the spec: get_counter_by_name searches the layout for the
first slot carrying the given source name and returns the surrounding block
layout together with the slot. -/
def HardwareLayout.get_counter_by_name (hw : HardwareLayout) (n : String) :
    Option (HardwareBlockLayout × HardwareCounterLayout) :=
  hw.blocks.findSome? (fun bl =>
    (bl.counters.find? (fun cl => cl.name = n)).map (fun cl => (bl, cl)))

/-- ProductInfo restricted to the fields the compiled views read: the
database key and the feature set. -/
structure ProductInfo where
  database_key : String
  features : List String

/-- ProductInfo.has_feature. -/
def ProductInfo.has_feature (pi : ProductInfo) (feature : String) : Bool :=
  feature ∈ pi.features

/-- CounterInfo restricted to the fields read by the view builder and the
validators (descriptions, units and trend play no role in any claim below
except units, which is kept). -/
structure CounterInfo where
  machine_name : String
  stable_id : Option Nat
  source_name : Option String
  source_name_aliases : List String
  human_name : String
  group_name : String
  group_human_name : String
  visibility : CounterVisibility
  units : String
  equation_ast : Option EqAst
  gpu_support : List String

/-- CounterInfo.supports_gpu. -/
def CounterInfo.supports_gpu (ci : CounterInfo) (key : String) : Bool :=
  key ∈ ci.gpu_support

/-- Truthiness of the optional source name (Python treats the empty string as
false as well). -/
def optStrTruthy : Option String → Bool
  | none => false
  | some s => s ≠ ""

/-! ## CounterView (counterview.py) -/

/-- The compiled per-product view of one counter. -/
structure CounterView where
  block_type : Option HardwareBlockType
  block_index : Nat
  scale_multiplier : Nat
  clock_domain : Option CounterClockDomain
  machine_name : String
  stable_id : Nat
  source_name : Option String
  human_name : String
  group_name : String
  group_human_name : String
  visibility : CounterVisibility
  unit : String
  equation_ast : Option EqAst
  equation_ast_resolved : Option EqAst
  equation_ast_resolved_error : Option String

namespace CounterView

/-- CounterView.is_derived: true when the source name is absent (or empty,
which Python also treats as false). -/
def is_derived (c : CounterView) : Bool :=
  !optStrTruthy c.source_name

/-- CounterView.is_visible. -/
def is_visible (c : CounterView) (max_visibility : CounterVisibility) : Bool :=
  c.visibility.value ≤ max_visibility.value

/-- The CounterView constructor.  Returns none when the stable ID is missing,
modelling the assert that refuses to propagate unassigned stable IDs into a
view.  The clock domain chain: no block type means no clock domain; without
the async_clock feature every hardware counter is on the GPU clock; with it,
shader-core blocks are on the shader-core clock and every other block on the
GPU clock. -/
def build (pi : ProductInfo) (hw_name : Option String)
    (hw_bl : Option HardwareBlockLayout) (hw_cl : Option HardwareCounterLayout)
    (ci : CounterInfo) : Option CounterView :=
  match ci.stable_id with
  | none => none
  | some sid =>
    let block_type : Option HardwareBlockType := hw_bl.map (·.btype)
    let block_index : Nat := match hw_cl with | none => 0 | some cl => cl.index
    let scale_multiplier : Nat := match hw_cl with | none => 1 | some cl => 2 ^ cl.shift
    let clock_domain : Option CounterClockDomain :=
      match block_type with
      | none => none
      | some bt =>
        if !pi.has_feature "async_clock" then some .GPU
        else if bt = .SHADER_CORE then some .SHADER_CORE
        else some .GPU
    some {
      block_type := block_type
      block_index := block_index
      scale_multiplier := scale_multiplier
      clock_domain := clock_domain
      machine_name := ci.machine_name
      stable_id := sid
      source_name := hw_name
      human_name := ci.human_name
      group_name := ci.group_name
      group_human_name := ci.group_human_name
      visibility := ci.visibility
      unit := ci.units
      equation_ast := ci.equation_ast
      equation_ast_resolved := none
      equation_ast_resolved_error := none }

end CounterView

/-! ## IndexedView (indexedview.py) -/

/-- The per-product indexed container with its five lookup indices. -/
structure IndexedView where
  gpu : String
  key : String
  by_stable_id : List (Nat × CounterView)
  by_machine_name : List (String × CounterView)
  by_source_name : List (String × CounterView)
  by_human_name : List (String × CounterView)
  by_group_names : List (String × CounterView)

namespace IndexedView

/-- An empty view for a product. -/
def empty (gpu key : String) : IndexedView :=
  ⟨gpu, key, [], [], [], [], []⟩

/-- IndexedView.get_by_machine_name (case-insensitive). -/
def get_by_machine_name (v : IndexedView) (k : String) : Option CounterView :=
  dictGet (strToLower k) v.by_machine_name

/-- IndexedView.get_by_source_name (case-insensitive). -/
def get_by_source_name (v : IndexedView) (k : String) : Option CounterView :=
  dictGet (strToLower k) v.by_source_name

/-- IndexedView.get_by_stable_id. -/
def get_by_stable_id (v : IndexedView) (k : Nat) : Option CounterView :=
  dictGetN k v.by_stable_id

/-- The index-insertion block shared by from_db and filter: a counter view is
added to the stable-ID index, the machine-name index, the source-name index
(hardware counters only), the human-name index and the group-names index. -/
def addIndexes (v : IndexedView) (c : CounterView) : IndexedView :=
  { v with
    by_stable_id := dictInsertN c.stable_id c v.by_stable_id
    by_machine_name := dictInsert (strToLower c.machine_name) c v.by_machine_name
    by_source_name :=
      match c.source_name with
      | some s => if s ≠ "" then dictInsert (strToLower s) c v.by_source_name
                  else v.by_source_name
      | none => v.by_source_name
    by_human_name := dictInsert (strToLower c.human_name) c v.by_human_name
    by_group_names :=
      dictInsert (strToLower (c.group_name ++ "|" ++ c.group_human_name)) c v.by_group_names }

/-- IndexedView.filter: iterate the stable-ID index values in order, keep
counters passing the visibility bound and the derived-ness switch, and rebuild
all five indices over the survivors in a fresh view. -/
def filter (v : IndexedView) (max_visibility : CounterVisibility)
    (derived : Bool) : IndexedView :=
  v.by_stable_id.foldl
    (fun acc p =>
      if !p.2.is_visible max_visibility then acc
      else if p.2.is_derived && !derived then acc
      else acc.addIndexes p.2)
    (empty v.gpu v.key)

/-- The alias search of from_db: try the source name and then each alias in
order against the hardware layout, first match wins; if nothing matches the
counter keeps its source name with no layout data (the error is left for the
validator). -/
def searchLayout (hw : HardwareLayout) (ci : CounterInfo) :
    Option String × Option HardwareBlockLayout × Option HardwareCounterLayout :=
  match ci.source_name with
  | none => (none, none, none)
  | some s =>
    if s = "" then (none, none, none)
    else
      match (s :: ci.source_name_aliases).findSome?
          (fun n => (hw.get_counter_by_name n).map (fun r => (n, r))) with
      | some (n, bl, cl) => (some n, some bl, some cl)
      | none => (some s, none, none)

/-- IndexedView.from_db: build a view for one product, skipping counters that
do not support the product key, resolving the physical layout through the
alias search, and indexing every surviving counter.  Returns none when a
counter has no stable ID (the constructor assert). -/
def from_db (product : String) (pi : ProductInfo) (hw_db : HardwareLayout)
    (ct_db : List CounterInfo) : Option IndexedView :=
  ct_db.foldlM
    (fun acc ci =>
      if !ci.supports_gpu acc.key then pure acc
      else
        let (hw_name, hw_bl, hw_cl) := searchLayout hw_db ci
        match CounterView.build pi hw_name hw_bl hw_cl ci with
        | none => none
        | some cv => some (acc.addIndexes cv))
    (empty product pi.database_key)

end IndexedView

/-! ## Equation resolver (EquationResolveTransformer) -/

/-- The CONSTANT_PATTERN regular expression: one or more characters drawn from
upper-case letters, digits and underscore. -/
def constant_pattern (s : String) : Bool :=
  s ≠ "" && s.toList.all (fun c => c.isUpper || c.isDigit || c = '_')

/-- Sequencing a fallible rewrite over an argument list. -/
def resolveArgsWith (f : EqAst → Except String EqAst) : EqArgs → Except String EqArgs
  | .nil => .ok .nil
  | .cons a t => do
    let a' ← f a
    let t' ← resolveArgsWith f t
    return .cons a' t'

namespace EquationResolveTransformer

/-- The recursive resolve pass.  A name matching the constant pattern is kept
literally; any other name must be a counter of the view (a missing counter is
the assertion failure surfaced as a resolve error); a native counter keeps its
name; a derived counter is replaced in place by the recursive resolve of its
own authored AST.  The Python recursion has no depth guard and would not
terminate on a cyclic derivation; the fuel argument only bounds the embedding
and every theorem below quantifies over it.  A derived counter with no
authored AST would crash the Python transformer; that is modelled as a
distinct error. -/
def transform (view : IndexedView) : Nat → EqAst → Except String EqAst
  | 0, _ => .error "recursion limit exceeded"
  | fuel + 1, ast =>
    match ast with
    | .num s => .ok (.num s)
    | .name s =>
      if constant_pattern s then .ok (.name s)
      else
        match view.get_by_machine_name s with
        | none => .error ("Missing counter: " ++ s)
        | some c =>
          if !c.is_derived then .ok (.name s)
          else
            match c.equation_ast with
            | none => .error ("Missing AST: " ++ s)
            | some a => transform view fuel a
    | .add a op b => do
      let a' ← transform view fuel a
      let b' ← transform view fuel b
      return .add a' op b'
    | .mul a op b => do
      let a' ← transform view fuel a
      let b' ← transform view fuel b
      return .mul a' op b'
    | .call f args => do
      let args' ← resolveArgsWith (transform view fuel) args
      return .call f args'

end EquationResolveTransformer

/-- equationutils.equation_ast_to_resolved_ast: run the resolve transformer,
catching the visit error as a message. -/
def equation_ast_to_resolved_ast (view : IndexedView) (fuel : Nat) (ast : EqAst) :
    Except String EqAst :=
  EquationResolveTransformer.transform view fuel ast

/-! ## Cardinality validator (validate_derived_equation_cardinality) -/

/-- Cardinality domains with varying instance count. -/
inductive Domain where
  | GPU
  | MEM
  | SC
  deriving DecidableEq

instance : Fintype Domain :=
  ⟨⟨{Domain.GPU, Domain.MEM, Domain.SC}, by decide⟩, fun d => by cases d <;> decide⟩

/-- The mapping of hardware blocks to implementation domains. -/
def blockDomain : HardwareBlockType → Domain
  | .GPU_FRONTEND => .GPU
  | .TILER => .GPU
  | .MEMORY_SYSTEM => .MEM
  | .SHADER_CORE => .SC

/-- Recognized domain scaling factors. -/
def scaling_constants : String → Option Domain
  | "MALI_CONFIG_L2_CACHE_COUNT" => some .MEM
  | "MALI_CONFIG_SHADER_CORE_COUNT" => some .SC
  | _ => none

/-- Other constants the check ignores. -/
def other_constants : List String :=
  ["MALI_CONFIG_TIME_SPAN", "MALI_CONFIG_EXT_BUS_BYTE_SIZE"]

/-- Manually reviewed exceptions. -/
def cardinality_exceptions : List String :=
  ["MaliFragOverdraw", "MaliSCBusTileWrBPerPx"]

/-- Set-insertion on a duplicate-free list. -/
def insertDedup (d : Domain) (l : List Domain) : List Domain :=
  if d ∈ l then l else l ++ [d]

/-- The per-name scan of the cardinality check: other constants and
intermediate nodes (stringified subtrees, which contain a parenthesis) are
ignored, scaling constants are recorded, and every remaining name must be a
counter of the view with a hardware block (the asserts in the source, rendered
as none). -/
def collectUses (view : IndexedView) : List String → Option (List Domain × List Domain)
  | [] => some ([], [])
  | s :: rest =>
    if s ∈ other_constants || s.toList.contains '(' then
      collectUses view rest
    else
      match scaling_constants s with
      | some d =>
        match collectUses view rest with
        | none => none
        | some (du, su) => some (du, insertDedup d su)
      | none =>
        match view.get_by_machine_name s with
        | none => none
        | some vc =>
          match vc.block_type with
          | none => none
          | some bt =>
            match collectUses view rest with
            | none => none
            | some (du, su) => some (insertDedup (blockDomain bt) du, su)

/-- The contribution of one counter to validate_derived_equation_cardinality:
native counters, counters with no resolved equation and counters on the
curated exception list contribute nothing; otherwise the touched domains and
present scaling constants are collected, checks only fire when more than one
domain is touched, and every touched non-GPU domain without its scaling
constant yields one error. -/
def counterCardinalityErrors (view : IndexedView) (c : CounterView) : Option Nat :=
  if !c.is_derived || c.equation_ast_resolved.isNone then some 0
  else if c.machine_name ∈ cardinality_exceptions then some 0
  else
    match c.equation_ast_resolved with
    | none => some 0
    | some r =>
      match collectUses view (namesOf r) with
      | none => none
      | some (domain_use, scale_use) =>
        if domain_use.length ≤ 1 then some 0
        else
          some (domain_use.foldl
            (fun acc d => if d = .GPU then acc else if d ∈ scale_use then acc else acc + 1)
            0)

/-! ## Stable-ID validator (validate_stable_ids) -/

/-- Append-to-group with defaultdict-of-list semantics: an existing group
grows in place, a new machine name opens a new group at the end. -/
def groupAppend (name : String) (c : CounterInfo) :
    List (String × List CounterInfo) → List (String × List CounterInfo)
  | [] => [(name, [c])]
  | (n0, g0) :: t =>
    if n0 = name then (n0, g0 ++ [c]) :: t else (n0, g0) :: groupAppend name c t

/-- The scan state of validate_stable_ids. -/
structure StableIdState where
  found_ids : List (Nat × CounterInfo)
  found_names : List (String × CounterInfo)
  missing_ids : List (String × List CounterInfo)
  errors : Nat

/-- One step of the first loop of validate_stable_ids: a counter with no
stable ID is queued; otherwise the first holder of each stable ID and of each
machine name is remembered, and later holders are checked against them,
counting an error on a machine-name mismatch for the ID or an ID mismatch for
the machine name. -/
def stableIdScanStep (st : StableIdState) (c : CounterInfo) : StableIdState :=
  match c.stable_id with
  | none => { st with missing_ids := groupAppend c.machine_name c st.missing_ids }
  | some sid =>
    let idErr : Nat :=
      match dictGetN sid st.found_ids with
      | none => 0
      | some c0 => if c0.machine_name ≠ c.machine_name then 1 else 0
    let found_ids :=
      match dictGetN sid st.found_ids with
      | none => dictInsertN sid c st.found_ids
      | some _ => st.found_ids
    let nameErr : Nat :=
      match dictGet c.machine_name st.found_names with
      | none => 0
      | some c0 => if c0.stable_id ≠ some sid then 1 else 0
    let found_names :=
      match dictGet c.machine_name st.found_names with
      | none => dictInsert c.machine_name c st.found_names
      | some _ => st.found_names
    { found_ids := found_ids
      found_names := found_names
      missing_ids := st.missing_ids
      errors := st.errors + idErr + nameErr }

/-- The whole first loop of validate_stable_ids. -/
def stableIdScan (db : List CounterInfo) : StableIdState :=
  db.foldl stableIdScanStep ⟨[], [], [], 0⟩

/-- get_unassigned_id: the lowest ID in range(0, max(found_ids) + 2) that is
not a key of found_ids.  Python max() raises on an empty dict, modelled as
none; the range always contains an unused ID so the fallback return 0 of the
source is kept through getD. -/
def get_unassigned_id (found_ids : List (Nat × CounterInfo)) : Option Nat :=
  match found_ids with
  | [] => none
  | _ =>
    let m := (found_ids.map Prod.fst).foldl max 0
    some (((List.range (m + 2)).find? (fun i => (dictGetN i found_ids).isNone)).getD 0)

/-- The second loop of validate_stable_ids: for each machine name queued as
missing, reuse the stable ID of the first scanned entry with that name when
one exists, else take get_unassigned_id (note that found_ids is never updated
here, so two distinct missing names can both receive the same suggestion);
each queued counter is patched and counted as one error. -/
def stableIdAssignments (st : StableIdState) :
    Option (Nat × List (String × Option Nat)) :=
  st.missing_ids.foldlM
    (fun acc g =>
      match dictGet g.1 st.found_names with
      | some c0 => some (acc.1 + g.2.length, acc.2 ++ [(g.1, c0.stable_id)])
      | none =>
        match get_unassigned_id st.found_ids with
        | none => none
        | some i => some (acc.1 + g.2.length, acc.2 ++ [(g.1, some i)]))
    ((0 : Nat), ([] : List (String × Option Nat)))

/-- validate_stable_ids: scan, then patch the database in place with the
suggested IDs; returns the error count and the patched database, or none for
the crash on max() of an empty found_ids dict. -/
def validate_stable_ids (db : List CounterInfo) : Option (Nat × List CounterInfo) :=
  let st := stableIdScan db
  match stableIdAssignments st with
  | none => none
  | some (e2, patch) =>
    some (st.errors + e2,
      db.map (fun c =>
        match c.stable_id with
        | some _ => c
        | none =>
          match dictGet c.machine_name patch with
          | some sid => { c with stable_id := sid }
          | none => c))

/-! ## Semantic info lookup (semanticinfo.py get_info_for) -/

/-- A section or group documentation entry: a name, the documentation body and
the applicability list of product database keys. -/
structure SemanticGroupInfo where
  name : String
  long_description : String
  gpu_support : List String
  deriving DecidableEq

/-- The failure modes of get_info_for: a missing or empty candidate list, a
second default encountered (the assert), or no default found at the end. -/
inductive SemanticLookupError where
  | noEntry
  | twoDefaults
  | noDefault
  deriving DecidableEq

/-- The scan loop of get_info_for: an entry naming the key is returned at
once; an entry with an empty applicability list becomes the default, but a
second one trips the assert; when the scan ends the default, if any, is
returned. -/
def get_info_for_go (key : String) (default : Option SemanticGroupInfo) :
    List SemanticGroupInfo → Except SemanticLookupError SemanticGroupInfo
  | [] =>
    match default with
    | none => .error .noDefault
    | some d => .ok d
  | i :: rest =>
    if key ∈ i.gpu_support then .ok i
    else if i.gpu_support.isEmpty then
      match default with
      | some _ => .error .twoDefaults
      | none => get_info_for_go key (some i) rest
    else get_info_for_go key default rest

/-- get_info_for: a missing or empty candidate list raises, otherwise the scan
loop runs with no default yet. -/
def get_info_for (key : String) (entries : List SemanticGroupInfo) :
    Except SemanticLookupError SemanticGroupInfo :=
  if entries.isEmpty then .error .noEntry
  else get_info_for_go key none entries

/-! ## Specification-level restatement of the cardinality analysis

These definitions follow the words of the claim (a per-domain touched test
and a per-domain scaling-constant presence test over the primitive operands)
and are compared with the loop-shaped validator code above. -/

/-- A name the cardinality scan does not skip: not one of the ignored
constants, and not a stringified intermediate node (which contains a
parenthesis). -/
def cardRelevant (s : String) : Bool :=
  !(s ∈ other_constants) && !(s.toList.contains '(')

/-- The domain contributed by one scanned name: none for skipped names and
for scaling constants, else the domain of the hardware block of the counter
the name denotes (none again when the lookup or the block is missing). -/
def nameDomain (view : IndexedView) (s : String) : Option Domain :=
  if !cardRelevant s then none
  else if (scaling_constants s).isSome then none
  else ((view.get_by_machine_name s).bind (·.block_type)).map blockDomain

/-- Does some primitive counter operand of the name list touch domain d? -/
def touchesDomain (view : IndexedView) (names : List String) (d : Domain) : Bool :=
  names.any (fun s => decide (nameDomain view s = some d))

/-- Is the scaling constant of domain d syntactically present in the name
list? -/
def scaleListed (names : List String) (d : Domain) : Bool :=
  names.any (fun s => decide (scaling_constants s = some d))

/-- The set of domains touched by the primitive counter operands. -/
def touchedFinset (view : IndexedView) (names : List String) : Finset Domain :=
  Finset.univ.filter (fun d => touchesDomain view names d = true)

/-- The number of touched non-GPU domains whose scaling constant is absent
from the expression. -/
def missingScaleCount (view : IndexedView) (names : List String) : Nat :=
  (Finset.univ.filter (fun d =>
    touchesDomain view names d = true ∧ d ≠ Domain.GPU ∧ scaleListed names d = false)).card

/-! ## Grammar alphabet

Modelled from the spec: the equation grammar file is not among the sources;
the specification fixes the token kinds to identifiers, numeric literals, the
four operators, parentheses, commas and whitespace, so any parseable equation
string draws on this alphabet. -/

/-- The characters that can occur in a string of the equation language. -/
def specGrammarChar (c : Char) : Bool :=
  c.isAlpha || c.isDigit || c = '_' || c = ' ' || c = '+' || c = '-' ||
  c = '*' || c = '/' || c = '(' || c = ')' || c = ',' || c = '.'

/-! ## Concrete fixtures used by witnesses and counterexamples -/

/-- A product with no asynchronous clock. -/
def fixPi : ProductInfo := ⟨"tg31", []⟩

/-- A product with the asynchronous clock feature. -/
def fixPiAsync : ProductInfo := ⟨"tg31", ["async_clock"]⟩

/-- A two-block hardware layout: one shader-core slot with a scale shift of
one, one memory-system slot. -/
def fixHw : HardwareLayout :=
  ⟨[⟨.SHADER_CORE, 0, [⟨"SC_CYC", 0, 1⟩]⟩, ⟨.MEMORY_SYSTEM, 0, [⟨"L2_RD", 3, 0⟩]⟩]⟩

/-- A native shader-core counter. -/
def fixCiSc : CounterInfo :=
  ⟨"MaliSCCyc", some 4, some "SC_CYC", [], "SC cycles", "G", "SC", .NOVICE, "cycles",
    none, ["tg31"]⟩

/-- A native memory-system counter. -/
def fixCiMem : CounterInfo :=
  ⟨"MaliL2Rd", some 5, some "L2_RD", [], "L2 reads", "G", "L2", .ADVANCED_SYSTEM, "beats",
    none, ["tg31"]⟩

/-- A derived counter mixing the two domains. -/
def fixCiDer : CounterInfo :=
  ⟨"MaliMix", some 6, none, [], "Mix", "G", "Mix", .NOVICE, "cycles",
    some (.add (.name "MaliSCCyc") "+" (.name "MaliL2Rd")), ["tg31"]⟩

/-- A native counter whose source name and alias match no layout slot. -/
def fixCiOrphan : CounterInfo :=
  ⟨"MaliOrphan", some 7, some "NOPE", ["NOPE2"], "Orphan", "G", "Orph", .NOVICE, "cycles",
    none, ["tg31"]⟩

/-- The compiled view over the four fixture counters. -/
def fixView : IndexedView :=
  (IndexedView.from_db "g31" fixPi fixHw [fixCiSc, fixCiMem, fixCiDer, fixCiOrphan]).getD
    (IndexedView.empty "x" "x")

/-- The two-domain resolved equation with no scaling constants. -/
def fixMixAst : EqAst := .add (.name "MaliSCCyc") "+" (.name "MaliL2Rd")

/-- The two-domain resolved equation with both scaling constants present. -/
def fixMixScaledAst : EqAst :=
  .add (.mul (.name "MaliSCCyc") "*" (.name "MALI_CONFIG_SHADER_CORE_COUNT")) "+"
    (.mul (.name "MaliL2Rd") "*" (.name "MALI_CONFIG_L2_CACHE_COUNT"))

/-- The derived fixture counter with its unscaled resolved equation. -/
def fixDerived : CounterView :=
  { block_type := none, block_index := 0, scale_multiplier := 1, clock_domain := none,
    machine_name := "MaliMix", stable_id := 6, source_name := none, human_name := "Mix",
    group_name := "G", group_human_name := "Mix", visibility := .NOVICE, unit := "cycles",
    equation_ast := some fixMixAst, equation_ast_resolved := some fixMixAst,
    equation_ast_resolved_error := none }

/-- The derived fixture counter with the scaled resolved equation. -/
def fixDerivedScaled : CounterView :=
  { fixDerived with equation_ast_resolved := some fixMixScaledAst }

/-- A derived counter whose machine name matches the constant pattern. -/
def fixCiShout : CounterInfo :=
  ⟨"FOO", some 0, none, [], "Shout", "G", "Shout", .NOVICE, "cycles",
    some (.num "1"), ["tkey"]⟩

/-- A derived counter whose equation refers to the all-caps machine name. -/
def fixCiBar : CounterInfo :=
  ⟨"MaliBar", some 1, none, [], "Bar", "G", "Bar", .NOVICE, "cycles",
    some (.name "FOO"), ["tkey"]⟩

/-- The view holding the all-caps derived counter and its client. -/
def fixShoutView : IndexedView :=
  (IndexedView.from_db "t" ⟨"tkey", []⟩ ⟨[]⟩ [fixCiShout, fixCiBar]).getD
    (IndexedView.empty "x" "x")

/-- The resolved AST of the literal half, exercising the non-integral
to_literal branch. -/
def fixHalfAst : EqAst := .mul (.num "1") "/" (.num "2")

/-- Stable-ID fixture entries: one assigned ID and two distinct machine names
with the ID missing. -/
def fixIdA : CounterInfo :=
  ⟨"MaliA", some 0, none, [], "A", "G", "A", .NOVICE, "cycles", some (.num "1"), []⟩

/-- Second stable-ID fixture entry (no ID). -/
def fixIdB : CounterInfo :=
  ⟨"MaliB", none, none, [], "B", "G", "B", .NOVICE, "cycles", some (.num "1"), []⟩

/-- Third stable-ID fixture entry (no ID, different machine name). -/
def fixIdC : CounterInfo :=
  ⟨"MaliC", none, none, [], "C", "G", "C", .NOVICE, "cycles", some (.num "1"), []⟩

/-- Documentation entries: two defaults listed before an exact match. -/
def fixDocDefault1 : SemanticGroupInfo := ⟨"Sect", "default one", []⟩

/-- Second default documentation entry. -/
def fixDocDefault2 : SemanticGroupInfo := ⟨"Sect", "default two", []⟩

/-- The exact-match documentation entry naming the product key. -/
def fixDocExact : SemanticGroupInfo := ⟨"Sect", "exact", ["tg31"]⟩

/-- A one-counter view on the asynchronous-clock product, for exercising the
shader-core clock domain. -/
def fixScView : IndexedView :=
  (IndexedView.from_db "g31" fixPiAsync fixHw [fixCiSc]).getD (IndexedView.empty "x" "x")

/-- The single stable-ID entry of the one-counter view. -/
def fixScEntry : Nat × CounterView :=
  fixScView.by_stable_id.headD (0, fixDerived)

/-- The filtered fixture view: novice visibility, no derived counters. -/
def fixFilteredView : IndexedView :=
  fixView.filter .NOVICE false

/-! # Theorems -/

/-! ## Helper lemmas about PPVal and the peephole optimiser -/

theorem isLitOne_eq (v : PPVal) (h : EquationPrettyPrintTransformer.isLitOne v = true) :
    v = .str "1" := by
  cases v with
  | str s =>
    simp only [EquationPrettyPrintTransformer.isLitOne, decide_eq_true_eq] at h
    rw [h]
  | opNode o p a b s => simp [EquationPrettyPrintTransformer.isLitOne] at h
  | fnNode f s => simp [EquationPrettyPrintTransformer.isLitOne] at h

/-- C4.  The round-trip claim fails on the code: the resolved AST of the
equation 1 / 2 (which the resolve transformer maps to itself) pretty-prints
to the repr of the Python float type, because to_literal returns str(float)
instead of formatting the value; that output contains characters outside the
equation-grammar alphabet, so re-parsing it cannot succeed, let alone re-print
to the same string.  to_literal contradicts its own docstring (format as a
float), so this is a defect of the code rather than of the claim. -/
theorem C4_roundtrip_breaks_on_float_literal :
    equation_ast_to_resolved_ast (IndexedView.empty "t" "t") 5 fixHalfAst = .ok fixHalfAst ∧
    equation_ast_to_string fixHalfAst = pyFloatTypeStr ∧
    pyFloatTypeStr.toList.all specGrammarChar = false ∧
    to_literal ⟨1, 2⟩ = pyFloatTypeStr := by
  refine ⟨rfl, by decide, by decide, by decide⟩

/-- C2 counterexample.  The claim lists four peephole rewrites and states
that no other algebraic identity is applied, but the same first rule of the
source also rewrites x / 1 to x, and the literal-folding helper also folds a
quotient of two numeric literals; the tree for A / 1 prints as A, not as the
untouched A / 1, and the tree for 4 / 2 prints as 2. -/
theorem C2_counterexample :
    equation_ast_to_string (.mul (.name "A") "/" (.num "1")) = "A" ∧
    equation_ast_to_string (.mul (.num "4") "/" (.num "2")) = "2" := by
  refine ⟨by decide, by decide⟩

/-- C2 amended.  The multiplicative peephole rules of the source, in order:
any right operand equal to the literal 1 is dropped for both * and /; a left
literal 1 is dropped for *; a product or quotient of two numeric literals is
folded through to_literal (integer string when exact, else the str(float)
repr); (a * lit1) * lit2 re-associates; in every other case a plain
precedence-1 operator node is produced, so no further identity is applied.
The folding clauses are stated on unsigned integer numerals within the
ranges where IEEE double arithmetic is exact - factors and product below
2^53 for *, a nonzero divisor and operands below 2^52 for /, where the
double quotient is an integer exactly when the division is exact - so the
exact fold in the model is the value the program computes.  The claimed
example rewrites hold. -/
theorem C2_mul_peephole :
    (∀ (a : PPVal) (op : String) (b : PPVal),
      EquationPrettyPrintTransformer.isLitOne b = true →
      EquationPrettyPrintTransformer.mul a op b = a) ∧
    (∀ (a b : PPVal),
      EquationPrettyPrintTransformer.isLitOne a = true →
      EquationPrettyPrintTransformer.mul a "*" b = b) ∧
    (∀ (sa sb : String) (na nb : PyFloat),
      parseNum sa = some na → parseNum sb = some nb → sa ≠ "1" → sb ≠ "1" →
      allDigits sa.toList = true → allDigits sb.toList = true →
      digitsVal sa.toList < 2 ^ 53 → digitsVal sb.toList < 2 ^ 53 →
      digitsVal sa.toList * digitsVal sb.toList < 2 ^ 53 →
      EquationPrettyPrintTransformer.mul (.str sa) "*" (.str sb)
        = .str (to_literal (na.fmul nb))) ∧
    (∀ (sa sb : String) (na nb : PyFloat),
      parseNum sa = some na → parseNum sb = some nb → sb ≠ "1" →
      allDigits sa.toList = true → allDigits sb.toList = true →
      0 < digitsVal sb.toList →
      digitsVal sa.toList < 2 ^ 52 → digitsVal sb.toList < 2 ^ 52 →
      EquationPrettyPrintTransformer.mul (.str sa) "/" (.str sb)
        = .str (to_literal (na.fdiv nb))) ∧
    (∀ (p : Nat) (a1 : PPVal) (s2 s sb : String) (na nb : PyFloat),
      parseNum s2 = some na → parseNum sb = some nb → sb ≠ "1" →
      allDigits s2.toList = true → allDigits sb.toList = true →
      digitsVal s2.toList < 2 ^ 53 → digitsVal sb.toList < 2 ^ 53 →
      digitsVal s2.toList * digitsVal sb.toList < 2 ^ 53 →
      EquationPrettyPrintTransformer.mul (.opNode "*" p a1 (.str s2) s) "*" (.str sb)
        = OperatorNode.make a1 "*" (.str (to_literal (na.fmul nb))) 1) ∧
    (∀ (a : PPVal) (op : String) (b : PPVal),
      EquationPrettyPrintTransformer.isLitOne b = false →
      (op = "*" → EquationPrettyPrintTransformer.isLitOne a = false) →
      EquationPrettyPrintTransformer.simplify_mul_str_str a op b = none →
      EquationPrettyPrintTransformer.simplify_mul_op_str a op b = none →
      EquationPrettyPrintTransformer.mul a op b = OperatorNode.make a op b 1) ∧
    equation_ast_to_string (.mul (.name "A") "*" (.num "1")) = "A" ∧
    equation_ast_to_string (.mul (.num "2") "*" (.num "3")) = "6" ∧
    equation_ast_to_string (.mul (.mul (.name "A") "*" (.num "2")) "*" (.num "3"))
      = "A * 6" := by
  refine ⟨?_, ?_, ?_, ?_, ?_, ?_, by decide, by decide, by decide⟩
  · intro a op b hb
    simp [EquationPrettyPrintTransformer.mul, hb]
  · intro a b ha
    by_cases hb : EquationPrettyPrintTransformer.isLitOne b
    · rw [isLitOne_eq a ha, isLitOne_eq b hb]
      simp [EquationPrettyPrintTransformer.mul, EquationPrettyPrintTransformer.isLitOne]
    · simp [EquationPrettyPrintTransformer.mul, hb, ha]
  · intro sa sb na nb hna hnb hsa hsb hda hdb hba hbb hbp
    have hlb : EquationPrettyPrintTransformer.isLitOne (.str sb) = false := by
      simp [EquationPrettyPrintTransformer.isLitOne, hsb]
    have hla : EquationPrettyPrintTransformer.isLitOne (.str sa) = false := by
      simp [EquationPrettyPrintTransformer.isLitOne, hsa]
    simp [EquationPrettyPrintTransformer.mul, hlb, hla,
      EquationPrettyPrintTransformer.simplify_mul_str_str, hna, hnb]
  · intro sa sb na nb hna hnb hsb hda hdb hbz hba hbb
    have hlb : EquationPrettyPrintTransformer.isLitOne (.str sb) = false := by
      simp [EquationPrettyPrintTransformer.isLitOne, hsb]
    simp [EquationPrettyPrintTransformer.mul, hlb,
      EquationPrettyPrintTransformer.simplify_mul_str_str, hna, hnb]
  · intro p a1 s2 s sb na nb hna hnb hsb hda hdb hba hbb hbp
    have hlb : EquationPrettyPrintTransformer.isLitOne (.str sb) = false := by
      simp [EquationPrettyPrintTransformer.isLitOne, hsb]
    simp [EquationPrettyPrintTransformer.mul, hlb,
      EquationPrettyPrintTransformer.simplify_mul_str_str,
      EquationPrettyPrintTransformer.simplify_mul_op_str, hna, hnb, hsb,
      EquationPrettyPrintTransformer.ppNum,
      EquationPrettyPrintTransformer.isLitOne]
  · intro a op b hb ha hss hos
    by_cases hmul : op = "*"
    · simp [EquationPrettyPrintTransformer.mul, hb, ha hmul, hss, hos]
    · simp [EquationPrettyPrintTransformer.mul, hb, hmul, hss, hos]

/-- C2 witness: the amended clauses applied at concrete operands. -/
theorem C2_mul_peephole_witness :
    EquationPrettyPrintTransformer.mul (.fnNode "min" "min(A, B)") "/" (.str "1")
      = .fnNode "min" "min(A, B)" ∧
    EquationPrettyPrintTransformer.mul (.str "1") "*" (.str "B") = .str "B" ∧
    EquationPrettyPrintTransformer.mul (.str "2") "*" (.str "3") = .str (to_literal ⟨6, 1⟩) ∧
    EquationPrettyPrintTransformer.mul (.str "1") "/" (.str "2") = .str (to_literal ⟨1, 2⟩) ∧
    EquationPrettyPrintTransformer.mul (.opNode "*" 1 (.str "A") (.str "2") "A * 2") "*"
        (.str "3")
      = OperatorNode.make (.str "A") "*" (.str (to_literal ⟨6, 1⟩)) 1 ∧
    EquationPrettyPrintTransformer.mul (.str "A") "+" (.str "B")
      = OperatorNode.make (.str "A") "+" (.str "B") 1 := by
  refine ⟨C2_mul_peephole.1 _ _ _ (by decide),
    C2_mul_peephole.2.1 _ _ (by decide),
    ?_, ?_, ?_,
    C2_mul_peephole.2.2.2.2.2.1 _ _ _ (by decide) (fun h => by decide) (by decide) (by decide)⟩
  · have := C2_mul_peephole.2.2.1 "2" "3" ⟨2, 1⟩ ⟨3, 1⟩ (by decide) (by decide)
      (by decide) (by decide) (by decide) (by decide) (by decide) (by decide) (by decide)
    rw [this]
    decide
  · have := C2_mul_peephole.2.2.2.1 "1" "2" ⟨1, 1⟩ ⟨2, 1⟩ (by decide) (by decide) (by decide)
      (by decide) (by decide) (by decide) (by decide) (by decide)
    rw [this]
    decide
  · have := C2_mul_peephole.2.2.2.2.1 1 (.str "A") "2" "A * 2" "3" ⟨2, 1⟩ ⟨3, 1⟩
      (by decide) (by decide) (by decide) (by decide) (by decide) (by decide) (by decide)
      (by decide)
    rw [this]
    decide

/-- C3 counterexample.  The parenthesisation rule is as claimed, but its
claimed consequence is wrong: in the tree for A + B * C the multiplicative
operand differs from its additive parent in both operator and precedence, so
the rule parenthesises it and the output is A + (B * C), not A + B * C. -/
theorem C3_counterexample :
    equation_ast_to_string (.add (.name "A") "+" (.mul (.name "B") "*" (.name "C")))
      = "A + (B * C)" ∧
    ("A + (B * C)" : String) ≠ "A + B * C" := by
  refine ⟨by decide, by decide⟩

/-- C3 amended.  An operand that is itself an operator node is parenthesised
exactly when its operator or its precedence class differs from the parent
node; other operand kinds are never parenthesised.  Consequently (A + B) * C
prints as (A + B) * C, while A + B * C prints as A + (B * C) because the
multiplicative child differs from its additive parent. -/
theorem C3_parenthesization :
    (∀ (pop : String) (pprec : Nat) (o : String) (p : Nat) (a b : PPVal) (s : String),
      OperatorNode.needs_parens pop pprec (.opNode o p a b s) = true ↔ (pop ≠ o ∨ pprec ≠ p)) ∧
    (∀ (pop : String) (pprec : Nat) (s : String),
      OperatorNode.add_parens pop pprec (.str s) = .str s) ∧
    (∀ (pop : String) (pprec : Nat) (f s : String),
      OperatorNode.add_parens pop pprec (.fnNode f s) = .fnNode f s) ∧
    (∀ (pop : String) (pprec : Nat) (o : String) (p : Nat) (a b : PPVal) (s : String),
      OperatorNode.add_parens pop pprec (.opNode o p a b s)
        = if OperatorNode.needs_parens pop pprec (.opNode o p a b s) = true
          then .str ("(" ++ s ++ ")") else .opNode o p a b s) ∧
    equation_ast_to_string (.mul (.add (.name "A") "+" (.name "B")) "*" (.name "C"))
      = "(A + B) * C" ∧
    equation_ast_to_string (.add (.name "A") "+" (.mul (.name "B") "*" (.name "C")))
      = "A + (B * C)" := by
  refine ⟨?_, fun _ _ _ => rfl, fun _ _ _ _ => rfl, ?_, by decide, by decide⟩
  · intro pop pprec o p a b s
    simp [OperatorNode.needs_parens]
  · intro pop pprec o p a b s
    by_cases h : OperatorNode.needs_parens pop pprec (.opNode o p a b s) = true
    · simp [OperatorNode.add_parens, h]
    · simp [OperatorNode.add_parens, h]

/-! ## Helper lemma for the documentation lookup -/

theorem get_info_for_go_spec (key : String) :
    ∀ (entries : List SemanticGroupInfo) (default : Option SemanticGroupInfo),
      (entries.filter (fun i => i.gpu_support.isEmpty)).length
          + (if default.isSome then 1 else 0) ≤ 1 →
      (∀ i, entries.find? (fun i => i.gpu_support.contains key) = some i →
        get_info_for_go key default entries = .ok i) ∧
      (entries.find? (fun i => i.gpu_support.contains key) = none →
        ((∀ d, entries.find? (fun i => i.gpu_support.isEmpty) = some d →
            get_info_for_go key default entries = .ok d) ∧
         (entries.find? (fun i => i.gpu_support.isEmpty) = none →
            get_info_for_go key default entries
              = match default with
                | some d => .ok d
                | none => .error .noDefault))) := by
  intro entries
  induction entries with
  | nil =>
    intro default hcount
    refine ⟨fun i hi => by simp at hi, fun _ => ⟨fun d hd => by simp at hd, fun _ => ?_⟩⟩
    cases default <;> rfl
  | cons i t ih =>
    intro default hcount
    by_cases hexact : i.gpu_support.contains key
    · have hmem : key ∈ i.gpu_support := by simpa using hexact
      constructor
      · intro j hj
        simp only [List.find?, hexact] at hj
        cases hj
        simp [get_info_for_go, hmem]
      · intro hnone
        simp only [List.find?, hexact] at hnone
        exact Option.noConfusion hnone
    · have hmem : key ∉ i.gpu_support := by simpa using hexact
      by_cases hempty : i.gpu_support.isEmpty
      · cases default with
        | some d =>
          exfalso
          simp only [List.filter, hempty, List.length_cons, Option.isSome_some,
            if_pos] at hcount
          omega
        | none =>
          simp only [List.filter, hempty, List.length_cons, Option.isSome_none] at hcount
          have htail : (t.filter (fun i => i.gpu_support.isEmpty)).length
              + (if (some i : Option SemanticGroupInfo).isSome then 1 else 0) ≤ 1 := by
            simp only [Option.isSome_some, if_pos]
            omega
          obtain ⟨ih1, ih2⟩ := ih (some i) htail
          constructor
          · intro j hj
            simp only [List.find?, hexact] at hj
            simp only [get_info_for_go, if_neg hmem, if_pos hempty]
            exact ih1 j hj
          · intro hnone
            simp only [List.find?, hexact] at hnone
            obtain ⟨ih2a, ih2b⟩ := ih2 hnone
            constructor
            · intro d hd
              simp only [List.find?, hempty] at hd
              cases hd
              simp only [get_info_for_go, if_neg hmem, if_pos hempty]
              have hnod : t.find? (fun i => i.gpu_support.isEmpty) = none := by
                rcases h : t.find? (fun i => i.gpu_support.isEmpty) with _ | j
                · exact h
                · exfalso
                  have hp := List.find?_some h
                  have hjmem := List.mem_of_find?_eq_some h
                  have hlen : 1 ≤ (t.filter (fun i => i.gpu_support.isEmpty)).length := by
                    have hin : j ∈ t.filter (fun i => i.gpu_support.isEmpty) :=
                      List.mem_filter.mpr ⟨hjmem, hp⟩
                    exact List.length_pos.mpr (List.ne_nil_of_mem hin)
                  omega
              exact ih2b hnod
            · intro hnod
              simp only [List.find?, hempty] at hnod
              exact Option.noConfusion hnod
      · have hemptyb : i.gpu_support.isEmpty = false := by simpa using hempty
        have htail : (t.filter (fun i => i.gpu_support.isEmpty)).length
            + (if default.isSome then 1 else 0) ≤ 1 := by
          simpa only [List.filter, hemptyb] using hcount
        obtain ⟨ih1, ih2⟩ := ih default htail
        constructor
        · intro j hj
          simp only [List.find?, hexact] at hj
          simp only [get_info_for_go, if_neg hmem, if_neg hempty]
          exact ih1 j hj
        · intro hnone
          simp only [List.find?, hexact] at hnone
          obtain ⟨ih2a, ih2b⟩ := ih2 hnone
          constructor
          · intro d hd
            simp only [List.find?, hemptyb] at hd
            simp only [get_info_for_go, if_neg hmem, if_neg hempty]
            exact ih2a d hd
          · intro hnod
            simp only [List.find?, hemptyb] at hnod
            simp only [get_info_for_go, if_neg hmem, if_neg hempty]
            exact ih2b hnod

/-- C9 counterexample.  When two empty-applicability entries precede the entry
naming the product key, the scan trips its second-default assert before
reaching the exact match, so an error is raised even though a candidate
explicitly names the key — the claimed return of the first exact match does
not happen. -/
theorem C9_counterexample :
    get_info_for "tg31" [fixDocDefault1, fixDocDefault2, fixDocExact]
      = .error .twoDefaults ∧
    "tg31" ∈ fixDocExact.gpu_support := by
  refine ⟨rfl, by decide⟩

/-- C9 amended.  Provided the candidate list holds at most one
empty-applicability entry, get_info_for returns the first candidate whose
applicability names the product key; with no such candidate it returns the
default when one exists and raises otherwise; a missing or empty candidate
list always raises.  With two or more defaults the scan raises as soon as the
second default is reached, even when a later candidate names the key. -/
theorem C9_get_info_for (key : String) (entries : List SemanticGroupInfo)
    (hone : (entries.filter (fun i => i.gpu_support.isEmpty)).length ≤ 1) :
    (entries = [] → get_info_for key entries = .error .noEntry) ∧
    (∀ i, entries.find? (fun i => i.gpu_support.contains key) = some i →
      get_info_for key entries = .ok i) ∧
    (entries.find? (fun i => i.gpu_support.contains key) = none →
      (∀ d, entries.find? (fun i => i.gpu_support.isEmpty) = some d →
        get_info_for key entries = .ok d) ∧
      (entries ≠ [] → entries.find? (fun i => i.gpu_support.isEmpty) = none →
        get_info_for key entries = .error .noDefault)) := by
  have hspec := get_info_for_go_spec key entries none (by simpa using hone)
  rcases entries with _ | ⟨i, t⟩
  · exact ⟨fun _ => rfl, fun i hi => by simp at hi, fun _ =>
      ⟨fun d hd => by simp at hd, fun h _ => absurd rfl h⟩⟩
  · have hne : ¬ (i :: t : List SemanticGroupInfo).isEmpty = true := by simp
    constructor
    · intro h
      exact absurd h (by simp)
    constructor
    · intro j hj
      rw [get_info_for, if_neg hne]
      exact hspec.1 j hj
    · intro hnone
      obtain ⟨h2a, h2b⟩ := hspec.2 hnone
      constructor
      · intro d hd
        rw [get_info_for, if_neg hne]
        exact h2a d hd
      · intro _ hnod
        rw [get_info_for, if_neg hne]
        exact h2b hnod

/-- C9 witness: the amended lookup applied to the one-default fixture lists.
-/
theorem C9_get_info_for_witness :
    get_info_for "tg31" [fixDocDefault1, fixDocExact] = .ok fixDocExact ∧
    get_info_for "other" [fixDocDefault1, fixDocExact] = .ok fixDocDefault1 ∧
    get_info_for "other" [fixDocExact] = .error .noDefault := by
  refine ⟨(C9_get_info_for "tg31" [fixDocDefault1, fixDocExact] (by decide)).2.1
      fixDocExact (by decide),
    ((C9_get_info_for "other" [fixDocDefault1, fixDocExact] (by decide)).2.2
      (by decide)).1 fixDocDefault1 (by decide),
    ((C9_get_info_for "other" [fixDocExact] (by decide)).2.2 (by decide)).2
      (by decide) (by decide)⟩

/-- C3 witness: the parenthesisation rule evaluated at concrete operands. -/
theorem C3_parenthesization_witness :
    OperatorNode.needs_parens "+" 0 (.opNode "*" 1 (.str "B") (.str "C") "B * C") = true ∧
    OperatorNode.needs_parens "+" 0 (.opNode "+" 0 (.str "B") (.str "C") "B + C") = false ∧
    OperatorNode.add_parens "*" 1 (.str "A") = .str "A" := by
  refine ⟨(C3_parenthesization.1 "+" 0 "*" 1 (.str "B") (.str "C") "B * C").mpr
      (by decide),
    ?_, C3_parenthesization.2.1 "*" 1 "A"⟩
  have h := C3_parenthesization.1 "+" 0 "+" 0 (.str "B") (.str "C") "B + C"
  by_cases hb : OperatorNode.needs_parens "+" 0 (.opNode "+" 0 (.str "B") (.str "C") "B + C")
      = true
  · exact absurd (h.mp hb) (by decide)
  · simpa using hb

/-! ## Helper lemmas for the resolve transformer -/

theorem resolveArgsWith_names (f : EqAst → Except String EqAst) (P : String → Prop)
    (hf : ∀ a b, f a = .ok b → ∀ s ∈ namesOf b, P s) :
    ∀ (l out : EqArgs), resolveArgsWith f l = .ok out → ∀ s ∈ namesOfArgs out, P s
  | .nil, out, h => by
    simp only [resolveArgsWith] at h
    cases h
    simp [namesOfArgs]
  | .cons a t, out, h => by
    simp only [resolveArgsWith, bind, Except.bind] at h
    cases ha : f a with
    | error e => rw [ha] at h; cases h
    | ok b =>
      rw [ha] at h
      cases ht : resolveArgsWith f t with
      | error e => rw [ht] at h; cases h
      | ok t0 =>
        rw [ht] at h
        simp only [pure, Except.pure, Except.ok.injEq] at h
        cases h
        intro s hs
        simp only [namesOfArgs, List.mem_append] at hs
        rcases hs with hs | hs
        · exact hf a b ha s hs
        · exact resolveArgsWith_names f P hf t t0 ht s hs

/-- C1 amended.  Every name remaining in a successfully resolved tree either
matches the constant pattern (kept literally) or denotes a native counter of
the view; names of derived counters are replaced in place by their own
recursively resolved sub-trees.  The claim additionally asserted that no
remaining name resolves to a derived counter, which fails when a constant-
pattern name collides case-insensitively with a derived counter machine name
(see the counterexample). -/
theorem C1_resolve_primitivizes (view : IndexedView) :
    ∀ (fuel : Nat) (ast out : EqAst),
      equation_ast_to_resolved_ast view fuel ast = .ok out →
      ∀ s ∈ namesOf out, constant_pattern s = true ∨
        ∃ c, view.get_by_machine_name s = some c ∧ c.is_derived = false := by
  intro fuel
  induction fuel with
  | zero =>
    intro ast out h
    simp [equation_ast_to_resolved_ast, EquationResolveTransformer.transform] at h
  | succ fuel ih =>
    intro ast out h
    simp only [equation_ast_to_resolved_ast] at h ih
    match ast with
    | .num s =>
      simp only [EquationResolveTransformer.transform] at h
      cases h
      simp [namesOf]
    | .name s =>
      simp only [EquationResolveTransformer.transform] at h
      by_cases hc : constant_pattern s
      · rw [if_pos hc] at h
        cases h
        intro s0 hs0
        simp only [namesOf, List.mem_singleton] at hs0
        cases hs0
        exact Or.inl hc
      · rw [if_neg hc] at h
        cases hl : view.get_by_machine_name s with
        | none => rw [hl] at h; cases h
        | some c =>
          rw [hl] at h
          by_cases hd : c.is_derived
          · simp only [hd, Bool.not_true, Bool.false_eq_true, if_false] at h
            cases ha : c.equation_ast with
            | none => rw [ha] at h; cases h
            | some a =>
              rw [ha] at h
              exact ih a out h
          · simp only [Bool.not_eq_true] at hd
            simp only [hd, Bool.not_false, if_true] at h
            cases h
            intro s0 hs0
            simp only [namesOf, List.mem_singleton] at hs0
            cases hs0
            exact Or.inr ⟨c, hl, hd⟩
    | .add a op b =>
      simp only [EquationResolveTransformer.transform, bind, Except.bind] at h
      cases ha : EquationResolveTransformer.transform view fuel a with
      | error e => rw [ha] at h; cases h
      | ok a0 =>
        rw [ha] at h
        cases hb : EquationResolveTransformer.transform view fuel b with
        | error e => rw [hb] at h; cases h
        | ok b0 =>
          rw [hb] at h
          simp only [pure, Except.pure, Except.ok.injEq] at h
          cases h
          intro s hs
          simp only [namesOf, List.mem_append] at hs
          rcases hs with hs | hs
          · exact ih a a0 ha s hs
          · exact ih b b0 hb s hs
    | .mul a op b =>
      simp only [EquationResolveTransformer.transform, bind, Except.bind] at h
      cases ha : EquationResolveTransformer.transform view fuel a with
      | error e => rw [ha] at h; cases h
      | ok a0 =>
        rw [ha] at h
        cases hb : EquationResolveTransformer.transform view fuel b with
        | error e => rw [hb] at h; cases h
        | ok b0 =>
          rw [hb] at h
          simp only [pure, Except.pure, Except.ok.injEq] at h
          cases h
          intro s hs
          simp only [namesOf, List.mem_append] at hs
          rcases hs with hs | hs
          · exact ih a a0 ha s hs
          · exact ih b b0 hb s hs
    | .call f args =>
      simp only [EquationResolveTransformer.transform, bind, Except.bind] at h
      cases hm : resolveArgsWith (EquationResolveTransformer.transform view fuel) args with
      | error e => rw [hm] at h; cases h
      | ok args0 =>
        rw [hm] at h
        simp only [pure, Except.pure, Except.ok.injEq] at h
        cases h
        intro s hs
        simp only [namesOf] at hs
        exact resolveArgsWith_names _ _ (fun a b hab => ih a b hab) args args0 hm s hs

/-- C1 witness: the resolved fixture equation holds only constants and native
counter names. -/
theorem C1_resolve_primitivizes_witness :
    equation_ast_to_resolved_ast fixView 10 fixMixAst = .ok fixMixAst ∧
    (∀ s ∈ namesOf fixMixAst, constant_pattern s = true ∨
      ∃ c, fixView.get_by_machine_name s = some c ∧ c.is_derived = false) :=
  ⟨rfl, C1_resolve_primitivizes fixView 10 fixMixAst fixMixAst rfl⟩

/-- C1 counterexample.  A derived counter whose machine name FOO matches the
constant pattern is kept literally by the resolver, so the successfully
resolved equation of the derived counter MaliBar still holds the name FOO,
and that name resolves (case-insensitively) to a derived counter of the view,
contradicting the claimed full primitivization. -/
theorem C1_counterexample :
    (IndexedView.from_db "t" ⟨"tkey", []⟩ ⟨[]⟩ [fixCiShout, fixCiBar]).isSome = true ∧
    fixCiBar.equation_ast = some (.name "FOO") ∧
    equation_ast_to_resolved_ast fixShoutView 5 (.name "FOO") = .ok (.name "FOO") ∧
    (fixShoutView.get_by_machine_name "FOO").map CounterView.is_derived = some true := by
  refine ⟨by decide, rfl, rfl, by decide⟩

/-- C10.  A supported native counter whose source name and aliases match no
hardware layout slot is neither dropped nor fatal: from_db still builds and
indexes a CounterView keeping the original source name (so it does not count
as derived) with no block type, block index 0 and scale multiplier 1, and
consequently no clock domain; the inconsistency is left for the validator.
The hardware layout lookup itself is modelled from the spec because
hardwarelayout.py is not among the sources. -/
theorem C10_unmatched_native_indexed (prod : String) (pi : ProductInfo)
    (hw : HardwareLayout) (ci : CounterInfo) (sid : Nat) (s : String)
    (h1 : ci.stable_id = some sid) (h2 : ci.source_name = some s) (h3 : s ≠ "")
    (h4 : ∀ n ∈ s :: ci.source_name_aliases, hw.get_counter_by_name n = none)
    (h5 : ci.supports_gpu pi.database_key = true) :
    ∃ view cv, IndexedView.from_db prod pi hw [ci] = some view ∧
      view.by_stable_id = [(sid, cv)] ∧
      cv.source_name = some s ∧ cv.is_derived = false ∧ cv.block_type = none ∧
      cv.block_index = 0 ∧ cv.scale_multiplier = 1 ∧ cv.clock_domain = none := by
  have hsearch : IndexedView.searchLayout hw ci = (some s, none, none) := by
    have hnone : (s :: ci.source_name_aliases).findSome?
        (fun n => Option.map (fun r => (n, r)) (hw.get_counter_by_name n)) = none := by
      rw [List.findSome?_eq_none_iff]
      intro n hn
      rw [h4 n hn]
      rfl
    simp only [IndexedView.searchLayout, h2]
    rw [if_neg h3, hnone]
  have hbuild : CounterView.build pi (some s) none none ci = some
      { block_type := none, block_index := 0, scale_multiplier := 1,
        clock_domain := none, machine_name := ci.machine_name, stable_id := sid,
        source_name := some s, human_name := ci.human_name,
        group_name := ci.group_name, group_human_name := ci.group_human_name,
        visibility := ci.visibility, unit := ci.units,
        equation_ast := ci.equation_ast, equation_ast_resolved := none,
        equation_ast_resolved_error := none } := by
    rw [CounterView.build, h1]
    rfl
  refine ⟨(IndexedView.empty prod pi.database_key).addIndexes
      { block_type := none, block_index := 0, scale_multiplier := 1,
        clock_domain := none, machine_name := ci.machine_name, stable_id := sid,
        source_name := some s, human_name := ci.human_name,
        group_name := ci.group_name, group_human_name := ci.group_human_name,
        visibility := ci.visibility, unit := ci.units,
        equation_ast := ci.equation_ast, equation_ast_resolved := none,
        equation_ast_resolved_error := none },
    { block_type := none, block_index := 0, scale_multiplier := 1,
        clock_domain := none, machine_name := ci.machine_name, stable_id := sid,
        source_name := some s, human_name := ci.human_name,
        group_name := ci.group_name, group_human_name := ci.group_human_name,
        visibility := ci.visibility, unit := ci.units,
        equation_ast := ci.equation_ast, equation_ast_resolved := none,
        equation_ast_resolved_error := none },
    ?_, rfl, rfl, ?_, rfl, rfl, rfl, rfl⟩
  · rw [IndexedView.from_db]
    simp only [List.foldlM_cons, List.foldlM_nil]
    have h5k : ci.supports_gpu (IndexedView.empty prod pi.database_key).key = true := h5
    simp only [h5k, Bool.not_true, Bool.false_eq_true, if_false, hsearch, hbuild]
    rfl
  · simp [CounterView.is_derived, optStrTruthy, h3]


/-- C10 witness: the orphan fixture counter, whose names match nothing in the
fixture layout. -/
theorem C10_unmatched_native_indexed_witness :
    ∃ view cv, IndexedView.from_db "g31" fixPi fixHw [fixCiOrphan] = some view ∧
      view.by_stable_id = [(7, cv)] ∧
      cv.source_name = some "NOPE" ∧ cv.is_derived = false ∧ cv.block_type = none ∧
      cv.block_index = 0 ∧ cv.scale_multiplier = 1 ∧ cv.clock_domain = none :=
  C10_unmatched_native_indexed "g31" fixPi fixHw fixCiOrphan 7 "NOPE" rfl rfl
    (by decide) (by decide) (by decide)

/-! ## Helper lemmas for view construction -/

theorem dictInsertN_mem {β : Type} (k : Nat) (v : β) :
    ∀ (d : List (Nat × β)) (p : Nat × β), p ∈ dictInsertN k v d → p = (k, v) ∨ p ∈ d
  | [], p, hp => by
    simp only [dictInsertN, List.mem_singleton] at hp
    exact Or.inl hp
  | (k0, v0) :: t, p, hp => by
    simp only [dictInsertN] at hp
    by_cases hk : k0 = k
    · rw [if_pos hk] at hp
      rcases List.mem_cons.mp hp with hp | hp
      · exact Or.inl hp
      · exact Or.inr (List.mem_cons_of_mem _ hp)
    · rw [if_neg hk] at hp
      rcases List.mem_cons.mp hp with hp | hp
      · exact Or.inr (by simp [hp])
      · rcases dictInsertN_mem k v t p hp with hp | hp
        · exact Or.inl hp
        · exact Or.inr (List.mem_cons_of_mem _ hp)

/-- Fold invariant of from_db: any per-counter property guaranteed by the
loop body holds of every value in the stable-ID index of the resulting view.
-/
theorem foldlM_addIndexes_inv (pi : ProductInfo) (hw : HardwareLayout)
    (P : CounterView → Prop) :
    ∀ (db : List CounterInfo) (acc view : IndexedView),
      acc.key = pi.database_key →
      (∀ p ∈ acc.by_stable_id, P p.2) →
      (∀ ci ∈ db, ci.supports_gpu pi.database_key = true →
        ∀ cv, CounterView.build pi (IndexedView.searchLayout hw ci).1
          (IndexedView.searchLayout hw ci).2.1
          (IndexedView.searchLayout hw ci).2.2 ci = some cv → P cv) →
      db.foldlM
        (fun acc ci =>
          if !ci.supports_gpu acc.key then pure acc
          else
            let r := IndexedView.searchLayout hw ci
            match CounterView.build pi r.1 r.2.1 r.2.2 ci with
            | none => none
            | some cv => some (acc.addIndexes cv)) acc = some view →
      ∀ p ∈ view.by_stable_id, P p.2
  | [], acc, view, hkey, hinv, hdb, h => by
    simp only [List.foldlM_nil, pure, Option.pure_def, Option.some.injEq] at h
    cases h
    exact hinv
  | ci :: t, acc, view, hkey, hinv, hdb, h => by
    rw [List.foldlM_cons] at h
    by_cases hs : ci.supports_gpu acc.key
    · simp only [hs, Bool.not_true, Bool.false_eq_true, if_false] at h
      cases hb : CounterView.build pi (IndexedView.searchLayout hw ci).1
          (IndexedView.searchLayout hw ci).2.1
          (IndexedView.searchLayout hw ci).2.2 ci with
      | none =>
        rw [hb] at h
        cases h
      | some cv =>
        rw [hb] at h
        refine foldlM_addIndexes_inv pi hw P t (acc.addIndexes cv) view hkey
          (fun p hp => ?_)
          (fun ci0 hci0 => hdb ci0 (List.mem_cons_of_mem _ hci0)) h
        rcases dictInsertN_mem _ _ _ p hp with hp | hp
        · rw [hp]
          exact hdb ci (List.mem_cons_self _ _) (by rwa [hkey] at hs) cv hb
        · exact hinv p hp
    · simp only [hs] at h
      simp only [Bool.not_false, if_true, pure, Option.pure_def] at h
      exact foldlM_addIndexes_inv pi hw P t acc view hkey hinv
        (fun ci0 hci0 => hdb ci0 (List.mem_cons_of_mem _ hci0)) h

/-- The clock domain of a freshly built CounterView as a function of its
block type and the product features. -/
theorem build_clock (pi : ProductInfo) (hw_name : Option String)
    (hw_bl : Option HardwareBlockLayout) (hw_cl : Option HardwareCounterLayout)
    (ci : CounterInfo) (cv : CounterView)
    (h : CounterView.build pi hw_name hw_bl hw_cl ci = some cv) :
    cv.block_type = hw_bl.map (·.btype) ∧ cv.source_name = hw_name ∧
    (cv.clock_domain = none ↔ cv.block_type = none) ∧
    (∀ bt, cv.block_type = some bt →
      cv.clock_domain = some (if pi.has_feature "async_clock" = true
        then (if bt = .SHADER_CORE then .SHADER_CORE else .GPU) else .GPU)) := by
  cases hsid : ci.stable_id with
  | none => rw [CounterView.build.eq_def, hsid] at h; cases h
  | some sid =>
    rw [CounterView.build.eq_def, hsid] at h
    simp only [Option.some.injEq] at h
    subst h
    cases hw_bl with
    | none => simp
    | some bl =>
      by_cases hf : pi.has_feature "async_clock"
      · by_cases hsc : bl.btype = HardwareBlockType.SHADER_CORE
        · exact ⟨rfl, rfl, by simp [hf, hsc], fun bt hbt => by
            have hbt2 : bl.btype = bt := by simpa using hbt
            subst hbt2
            simp [hf, hsc]⟩
        · exact ⟨rfl, rfl, by simp [hf, hsc], fun bt hbt => by
            have hbt2 : bl.btype = bt := by simpa using hbt
            subst hbt2
            simp [hf, hsc]⟩
      · have hf2 : pi.has_feature "async_clock" = false := by simpa using hf
        exact ⟨rfl, rfl, by simp [hf2], fun bt hbt => by
          have hbt2 : bl.btype = bt := by simpa using hbt
          subst hbt2
          simp [hf2]⟩

/-- The alias search never reports layout data without a matched name. -/
theorem searchLayout_none (hw : HardwareLayout) (ci : CounterInfo)
    (h : (IndexedView.searchLayout hw ci).1 = none) :
    IndexedView.searchLayout hw ci = (none, none, none) := by
  cases hsrc : ci.source_name with
  | none => simp [IndexedView.searchLayout, hsrc]
  | some s =>
    simp only [IndexedView.searchLayout, hsrc] at h ⊢
    by_cases he : s = ""
    · rw [if_pos he]
    · rw [if_neg he] at h ⊢
      cases hf : (s :: ci.source_name_aliases).findSome?
          (fun n => Option.map (fun r => (n, r)) (hw.get_counter_by_name n)) with
      | none =>
        rw [hf] at h
        simp at h
      | some r =>
        obtain ⟨n, bl, cl⟩ := r
        rw [hf] at h
        simp at h

/-- C6 counterexample.  The claim says the clock domain is None if and only
if the counter is derived, but the fixture view holds a native counter (with
a source name, so not derived) whose source matched no hardware slot: its
clock domain is None while is_derived is false. -/
theorem C6_counterexample :
    (IndexedView.from_db "g31" fixPi fixHw
      [fixCiSc, fixCiMem, fixCiDer, fixCiOrphan]).isSome = true ∧
    (fixView.get_by_machine_name "MaliOrphan").map
      (fun c => (c.clock_domain, c.is_derived)) = some (none, false) := by
  refine ⟨by decide, by decide⟩

/-- C6 amended.  For every CounterView placed in a view by from_db the clock
domain is None exactly when the block type is None - which covers every
derived counter (no source name) and also native counters whose source
matched no layout slot; a counter with a hardware block is on the GPU clock
when the product lacks the async_clock feature, on the shader-core clock
exactly for shader-core blocks when it has the feature, and on the GPU clock
otherwise. -/
theorem C6_clock_domain (prod : String) (pi : ProductInfo) (hw : HardwareLayout)
    (db : List CounterInfo) (view : IndexedView)
    (h : IndexedView.from_db prod pi hw db = some view) :
    ∀ p ∈ view.by_stable_id,
      (p.2.clock_domain = none ↔ p.2.block_type = none) ∧
      (p.2.source_name = none → p.2.clock_domain = none) ∧
      (∀ bt, p.2.block_type = some bt →
        p.2.clock_domain = some (if pi.has_feature "async_clock" = true
          then (if bt = .SHADER_CORE then .SHADER_CORE else .GPU) else .GPU)) := by
  intro p hp
  refine foldlM_addIndexes_inv pi hw
    (fun cv => (cv.clock_domain = none ↔ cv.block_type = none) ∧
      (cv.source_name = none → cv.clock_domain = none) ∧
      (∀ bt, cv.block_type = some bt →
        cv.clock_domain = some (if pi.has_feature "async_clock" = true
          then (if bt = .SHADER_CORE then .SHADER_CORE else .GPU) else .GPU)))
    db (IndexedView.empty prod pi.database_key) view rfl (by simp [IndexedView.empty])
    ?_ h p hp
  intro ci hci hsup cv hb
  obtain ⟨hblock, hsrc, hiff, hcase⟩ := build_clock pi _ _ _ ci cv hb
  refine ⟨hiff, ?_, hcase⟩
  intro hsn
  have hs1 : (IndexedView.searchLayout hw ci).1 = none := by rw [← hsrc, hsn]
  have := searchLayout_none hw ci hs1
  rw [hiff, hblock, this]
  rfl

/-- C6 witness: the amended characterization at the shader-core counter of
the asynchronous-clock fixture view. -/
theorem C6_clock_domain_witness :
    fixScEntry ∈ fixScView.by_stable_id ∧
    ((fixScEntry.2.clock_domain = none ↔ fixScEntry.2.block_type = none) ∧
      (fixScEntry.2.source_name = none → fixScEntry.2.clock_domain = none) ∧
      (∀ bt, fixScEntry.2.block_type = some bt →
        fixScEntry.2.clock_domain = some (if fixPiAsync.has_feature "async_clock" = true
          then (if bt = .SHADER_CORE then .SHADER_CORE else .GPU) else .GPU))) := by
  have hmem : fixScEntry ∈ fixScView.by_stable_id := List.mem_singleton.mpr rfl
  exact ⟨hmem, C6_clock_domain "g31" fixPiAsync fixHw [fixCiSc] fixScView rfl
    fixScEntry hmem⟩

/-! ## Helper lemmas for IndexedView.filter -/

theorem dictInsert_mem {β : Type} (k : String) (v : β) :
    ∀ (d : List (String × β)) (p : String × β), p ∈ dictInsert k v d → p = (k, v) ∨ p ∈ d
  | [], p, hp => by
    simp only [dictInsert, List.mem_singleton] at hp
    exact Or.inl hp
  | (k0, v0) :: t, p, hp => by
    simp only [dictInsert] at hp
    by_cases hk : k0 = k
    · rw [if_pos hk] at hp
      rcases List.mem_cons.mp hp with hp | hp
      · exact Or.inl hp
      · exact Or.inr (List.mem_cons_of_mem _ hp)
    · rw [if_neg hk] at hp
      rcases List.mem_cons.mp hp with hp | hp
      · exact Or.inr (by simp [hp])
      · rcases dictInsert_mem k v t p hp with hp | hp
        · exact Or.inl hp
        · exact Or.inr (List.mem_cons_of_mem _ hp)

theorem dictInsert_self {β : Type} (k : String) (v : β) :
    ∀ (d : List (String × β)), (k, v) ∈ dictInsert k v d
  | [] => by simp [dictInsert]
  | (k0, v0) :: t => by
    simp only [dictInsert]
    by_cases hk : k0 = k
    · rw [if_pos hk]
      exact List.mem_cons_self _ _
    · rw [if_neg hk]
      exact List.mem_cons_of_mem _ (dictInsert_self k v t)

theorem dictInsert_key_stable {β : Type} (k0 k : String) (v : β) :
    ∀ (d : List (String × β)), (∃ w, (k0, w) ∈ d) → ∃ w, (k0, w) ∈ dictInsert k v d := by
  intro d hd
  by_cases hk : k0 = k
  · exact ⟨v, hk ▸ dictInsert_self k v d⟩
  · obtain ⟨w, hw⟩ := hd
    refine ⟨w, ?_⟩
    induction d with
    | nil => simp at hw
    | cons h t ih =>
      obtain ⟨k1, v1⟩ := h
      simp only [dictInsert]
      by_cases hk1 : k1 = k
      · rw [if_pos hk1]
        rcases List.mem_cons.mp hw with hw | hw
        · exfalso
          apply hk
          rw [← hk1]
          exact congrArg Prod.fst hw
        · exact List.mem_cons_of_mem _ hw
      · rw [if_neg hk1]
        rcases List.mem_cons.mp hw with hw | hw
        · exact hw ▸ List.mem_cons_self _ _
        · exact List.mem_cons_of_mem _ (ih hw)

theorem dictInsertN_append {β : Type} (k : Nat) (v : β) :
    ∀ (d : List (Nat × β)), k ∉ d.map Prod.fst → dictInsertN k v d = d ++ [(k, v)]
  | [], _ => rfl
  | (k0, v0) :: t, hk => by
    simp only [List.map_cons, List.mem_cons] at hk
    push_neg at hk
    simp only [dictInsertN, if_neg (Ne.symm hk.1)]
    rw [dictInsertN_append k v t hk.2]
    rfl

/-- The body of the filter loop, rewritten through the survival predicate. -/
theorem filterStep_eq (mv : CounterVisibility) (derived : Bool) (acc : IndexedView)
    (p : Nat × CounterView) :
    (if !p.2.is_visible mv then acc
     else if p.2.is_derived && !derived then acc
     else acc.addIndexes p.2)
    = if (p.2.is_visible mv && (derived || !p.2.is_derived)) = true
      then acc.addIndexes p.2 else acc := by
  by_cases h1 : p.2.is_visible mv <;> by_cases h2 : p.2.is_derived <;> cases derived <;>
    simp [h1, h2]

/-- The stable-ID index of a filtered view is the filtered entry list of the
source index, provided the source keys are the stable IDs and are unique. -/
theorem filterFold_stable (mv : CounterVisibility) (derived : Bool) :
    ∀ (l : List (Nat × CounterView)) (acc : IndexedView),
      (∀ p ∈ l, p.1 = p.2.stable_id) →
      (acc.by_stable_id.map Prod.fst ++ l.map Prod.fst).Nodup →
      (l.foldl (fun acc p =>
        if (p.2.is_visible mv && (derived || !p.2.is_derived)) = true
          then acc.addIndexes p.2 else acc) acc).by_stable_id
        = acc.by_stable_id
          ++ l.filter (fun p => p.2.is_visible mv && (derived || !p.2.is_derived))
  | [], acc, hk, hn => by simp
  | p :: t, acc, hk, hn => by
    rw [List.foldl_cons]
    by_cases hp : (p.2.is_visible mv && (derived || !p.2.is_derived)) = true
    · rw [if_pos hp]
      have hkey : p.1 ∉ acc.by_stable_id.map Prod.fst := by
        intro hmem
        rcases List.nodup_append.mp hn with ⟨-, -, hdis⟩
        exact hdis hmem (by simp)
      have hstable : (acc.addIndexes p.2).by_stable_id
          = acc.by_stable_id ++ [(p.1, p.2)] := by
        show dictInsertN p.2.stable_id p.2 acc.by_stable_id
          = acc.by_stable_id ++ [(p.1, p.2)]
        rw [← hk p (List.mem_cons_self _ _)]
        exact dictInsertN_append p.1 p.2 acc.by_stable_id hkey
      have hrec := filterFold_stable mv derived t (acc.addIndexes p.2)
        (fun q hq => hk q (List.mem_cons_of_mem _ hq))
        (by
          rw [hstable]
          simp only [List.map_append, List.map_cons, List.map_singleton]
          rw [List.append_assoc]
          simpa using hn)
      rw [hrec, hstable]
      simp only [List.filter, hp, List.append_assoc, List.singleton_append]
    · rw [if_neg hp]
      have hrec := filterFold_stable mv derived t acc
        (fun q hq => hk q (List.mem_cons_of_mem _ hq))
        (by
          refine List.Nodup.sublist ?_ hn
          refine List.Sublist.append_left ?_ _
          simp)
      rw [hrec]
      have hp2 : (p.2.is_visible mv && (derived || !p.2.is_derived)) = false := by
        simpa using hp
      simp only [List.filter, hp2]

/-- Entries of a string index of the filtered view all come from surviving
counters, carrying the key the index assigns them. -/
theorem filterFold_index_mem (mv : CounterVisibility) (derived : Bool)
    (keyOf : CounterView → Option String)
    (getIdx : IndexedView → List (String × CounterView))
    (hcompat : ∀ w c, getIdx (w.addIndexes c)
      = match keyOf c with
        | some k => dictInsert k c (getIdx w)
        | none => getIdx w) :
    ∀ (l : List (Nat × CounterView)) (acc : IndexedView) (q : String × CounterView),
      q ∈ getIdx (l.foldl (fun acc p =>
        if (p.2.is_visible mv && (derived || !p.2.is_derived)) = true
          then acc.addIndexes p.2 else acc) acc) →
      q ∈ getIdx acc ∨ ∃ p ∈ l, (p.2.is_visible mv && (derived || !p.2.is_derived)) = true ∧
        keyOf p.2 = some q.1 ∧ q.2 = p.2
  | [], acc, q, hq => by
    simp only [List.foldl_nil] at hq
    exact Or.inl hq
  | p :: t, acc, q, hq => by
    rw [List.foldl_cons] at hq
    by_cases hp : (p.2.is_visible mv && (derived || !p.2.is_derived)) = true
    · rw [if_pos hp] at hq
      rcases filterFold_index_mem mv derived keyOf getIdx hcompat t _ q hq with hq | hq
      · rw [hcompat] at hq
        cases hkey : keyOf p.2 with
        | none =>
          rw [hkey] at hq
          exact Or.inl hq
        | some k =>
          rw [hkey] at hq
          rcases dictInsert_mem k p.2 _ q hq with hq | hq
          · refine Or.inr ⟨p, List.mem_cons_self _ _, hp, ?_, ?_⟩
            · rw [hkey, hq]
            · rw [hq]
          · exact Or.inl hq
      · obtain ⟨p0, hp0, hs, hkey, hv⟩ := hq
        exact Or.inr ⟨p0, List.mem_cons_of_mem _ hp0, hs, hkey, hv⟩
    · rw [if_neg hp] at hq
      rcases filterFold_index_mem mv derived keyOf getIdx hcompat t acc q hq with hq | hq
      · exact Or.inl hq
      · obtain ⟨p0, hp0, hs, hkey, hv⟩ := hq
        exact Or.inr ⟨p0, List.mem_cons_of_mem _ hp0, hs, hkey, hv⟩

/-- Keys of surviving counters are present in the string indices of the
filtered view. -/
theorem filterFold_index_key (mv : CounterVisibility) (derived : Bool)
    (keyOf : CounterView → Option String)
    (getIdx : IndexedView → List (String × CounterView))
    (hcompat : ∀ w c, getIdx (w.addIndexes c)
      = match keyOf c with
        | some k => dictInsert k c (getIdx w)
        | none => getIdx w) :
    ∀ (l : List (Nat × CounterView)) (acc : IndexedView),
      (∀ k, (∃ w, (k, w) ∈ getIdx acc) →
        ∃ w, (k, w) ∈ getIdx (l.foldl (fun acc p =>
          if (p.2.is_visible mv && (derived || !p.2.is_derived)) = true
            then acc.addIndexes p.2 else acc) acc)) ∧
      (∀ p ∈ l, (p.2.is_visible mv && (derived || !p.2.is_derived)) = true →
        ∀ k, keyOf p.2 = some k →
        ∃ w, (k, w) ∈ getIdx (l.foldl (fun acc p =>
          if (p.2.is_visible mv && (derived || !p.2.is_derived)) = true
            then acc.addIndexes p.2 else acc) acc))
  | [], acc => by
    constructor
    · intro k hk
      simpa using hk
    · intro p hp
      simp at hp
  | p :: t, acc => by
    have hstepkey : ∀ (w : IndexedView) (c : CounterView) (k : String),
        (∃ z, (k, z) ∈ getIdx w) → ∃ z, (k, z) ∈ getIdx (w.addIndexes c) := by
      intro w c k hk
      rw [hcompat]
      cases hkc : keyOf c with
      | none => exact hk
      | some k1 => exact dictInsert_key_stable k k1 c _ hk
    constructor
    · intro k hk
      rw [List.foldl_cons]
      by_cases hp : (p.2.is_visible mv && (derived || !p.2.is_derived)) = true
      · rw [if_pos hp]
        exact (filterFold_index_key mv derived keyOf getIdx hcompat t _).1 k
          (hstepkey acc p.2 k hk)
      · rw [if_neg hp]
        exact (filterFold_index_key mv derived keyOf getIdx hcompat t acc).1 k hk
    · intro p0 hp0 hs k hkey
      rw [List.foldl_cons]
      rcases List.mem_cons.mp hp0 with hp0 | hp0
      · subst hp0
        rw [if_pos hs]
        refine (filterFold_index_key mv derived keyOf getIdx hcompat t _).1 k ?_
        rw [hcompat, hkey]
        exact ⟨p0.2, dictInsert_self k p0.2 _⟩
      · by_cases hp : (p.2.is_visible mv && (derived || !p.2.is_derived)) = true
        · rw [if_pos hp]
          exact (filterFold_index_key mv derived keyOf getIdx hcompat t _).2 p0 hp0 hs k hkey
        · rw [if_neg hp]
          exact (filterFold_index_key mv derived keyOf getIdx hcompat t acc).2 p0 hp0 hs k hkey

/-- C7.  filter returns a view whose stable-ID index holds exactly the source
counters passing the visibility bound and the derived-ness switch, and whose
four string indices are rebuilt over exactly that subset: every index entry
carries a surviving counter under its proper lower-cased key, and every
surviving counter contributes its key to each index (the source-name index
only for counters with a non-empty source name).  The embedding is pure, so
the source view is unchanged by construction. -/
theorem C7_filter (v : IndexedView) (mv : CounterVisibility) (derived : Bool)
    (hk : ∀ p ∈ v.by_stable_id, p.1 = p.2.stable_id)
    (hn : (v.by_stable_id.map Prod.fst).Nodup) :
    (v.filter mv derived).by_stable_id
      = v.by_stable_id.filter
          (fun p => p.2.is_visible mv && (derived || !p.2.is_derived)) ∧
    (∀ q ∈ (v.filter mv derived).by_machine_name,
      q.1 = strToLower q.2.machine_name ∧
      ∃ p ∈ v.by_stable_id,
        (p.2.is_visible mv && (derived || !p.2.is_derived)) = true ∧ q.2 = p.2) ∧
    (∀ p ∈ v.by_stable_id,
      (p.2.is_visible mv && (derived || !p.2.is_derived)) = true →
      ∃ c, (strToLower p.2.machine_name, c) ∈ (v.filter mv derived).by_machine_name) ∧
    (∀ q ∈ (v.filter mv derived).by_human_name,
      q.1 = strToLower q.2.human_name ∧
      ∃ p ∈ v.by_stable_id,
        (p.2.is_visible mv && (derived || !p.2.is_derived)) = true ∧ q.2 = p.2) ∧
    (∀ p ∈ v.by_stable_id,
      (p.2.is_visible mv && (derived || !p.2.is_derived)) = true →
      ∃ c, (strToLower p.2.human_name, c) ∈ (v.filter mv derived).by_human_name) ∧
    (∀ q ∈ (v.filter mv derived).by_group_names,
      q.1 = strToLower (q.2.group_name ++ "|" ++ q.2.group_human_name) ∧
      ∃ p ∈ v.by_stable_id,
        (p.2.is_visible mv && (derived || !p.2.is_derived)) = true ∧ q.2 = p.2) ∧
    (∀ p ∈ v.by_stable_id,
      (p.2.is_visible mv && (derived || !p.2.is_derived)) = true →
      ∃ c, (strToLower (p.2.group_name ++ "|" ++ p.2.group_human_name), c)
        ∈ (v.filter mv derived).by_group_names) ∧
    (∀ q ∈ (v.filter mv derived).by_source_name,
      (∃ s, q.2.source_name = some s ∧ s ≠ "" ∧ q.1 = strToLower s) ∧
      ∃ p ∈ v.by_stable_id,
        (p.2.is_visible mv && (derived || !p.2.is_derived)) = true ∧ q.2 = p.2) ∧
    (∀ p ∈ v.by_stable_id,
      (p.2.is_visible mv && (derived || !p.2.is_derived)) = true →
      ∀ s, p.2.source_name = some s → s ≠ "" →
      ∃ c, (strToLower s, c) ∈ (v.filter mv derived).by_source_name) := by
  have hfun : (fun (acc : IndexedView) (p : Nat × CounterView) =>
      if !p.2.is_visible mv then acc
      else if p.2.is_derived && !derived then acc
      else acc.addIndexes p.2)
      = (fun acc p =>
        if (p.2.is_visible mv && (derived || !p.2.is_derived)) = true
          then acc.addIndexes p.2 else acc) :=
    funext fun acc => funext fun p => filterStep_eq mv derived acc p
  have hfilter : v.filter mv derived
      = v.by_stable_id.foldl
        (fun acc p =>
          if (p.2.is_visible mv && (derived || !p.2.is_derived)) = true
            then acc.addIndexes p.2 else acc)
        (IndexedView.empty v.gpu v.key) := by
    rw [IndexedView.filter, hfun]
  have hcompatM : ∀ (w : IndexedView) (c : CounterView), (w.addIndexes c).by_machine_name
      = match some (strToLower c.machine_name) with
        | some k => dictInsert k c w.by_machine_name
        | none => w.by_machine_name := fun w c => rfl
  have hcompatH : ∀ (w : IndexedView) (c : CounterView), (w.addIndexes c).by_human_name
      = match some (strToLower c.human_name) with
        | some k => dictInsert k c w.by_human_name
        | none => w.by_human_name := fun w c => rfl
  have hcompatG : ∀ (w : IndexedView) (c : CounterView), (w.addIndexes c).by_group_names
      = match some (strToLower (c.group_name ++ "|" ++ c.group_human_name)) with
        | some k => dictInsert k c w.by_group_names
        | none => w.by_group_names := fun w c => rfl
  have hcompatS : ∀ (w : IndexedView) (c : CounterView), (w.addIndexes c).by_source_name
      = match (match c.source_name with
          | some s => if s ≠ "" then some (strToLower s) else none
          | none => none) with
        | some k => dictInsert k c w.by_source_name
        | none => w.by_source_name := by
    intro w c
    cases hs : c.source_name with
    | none => simp [IndexedView.addIndexes, hs]
    | some s =>
      by_cases he : s = ""
      · simp [IndexedView.addIndexes, hs, he]
      · simp [IndexedView.addIndexes, hs, he]
  refine ⟨?_, ?_, ?_, ?_, ?_, ?_, ?_, ?_, ?_⟩
  · rw [hfilter]
    have := filterFold_stable mv derived v.by_stable_id
      (IndexedView.empty v.gpu v.key) hk (by simpa using hn)
    simpa using this
  · intro q hq
    rw [hfilter] at hq
    rcases filterFold_index_mem mv derived (fun c => some (strToLower c.machine_name))
        (·.by_machine_name) hcompatM v.by_stable_id _ q hq with hq | hq
    · simp [IndexedView.empty] at hq
    · obtain ⟨p, hp, hs, hkey, hv⟩ := hq
      simp only [Option.some.injEq] at hkey
      exact ⟨by rw [hv, ← hkey], p, hp, hs, hv⟩
  · intro p hp hs
    rw [hfilter]
    exact (filterFold_index_key mv derived (fun c => some (strToLower c.machine_name))
      (·.by_machine_name) hcompatM v.by_stable_id _).2 p hp hs _ rfl
  · intro q hq
    rw [hfilter] at hq
    rcases filterFold_index_mem mv derived (fun c => some (strToLower c.human_name))
        (·.by_human_name) hcompatH v.by_stable_id _ q hq with hq | hq
    · simp [IndexedView.empty] at hq
    · obtain ⟨p, hp, hs, hkey, hv⟩ := hq
      simp only [Option.some.injEq] at hkey
      exact ⟨by rw [hv, ← hkey], p, hp, hs, hv⟩
  · intro p hp hs
    rw [hfilter]
    exact (filterFold_index_key mv derived (fun c => some (strToLower c.human_name))
      (·.by_human_name) hcompatH v.by_stable_id _).2 p hp hs _ rfl
  · intro q hq
    rw [hfilter] at hq
    rcases filterFold_index_mem mv derived
        (fun c => some (strToLower (c.group_name ++ "|" ++ c.group_human_name)))
        (·.by_group_names) hcompatG v.by_stable_id _ q hq with hq | hq
    · simp [IndexedView.empty] at hq
    · obtain ⟨p, hp, hs, hkey, hv⟩ := hq
      simp only [Option.some.injEq] at hkey
      exact ⟨by rw [hv, ← hkey], p, hp, hs, hv⟩
  · intro p hp hs
    rw [hfilter]
    exact (filterFold_index_key mv derived
      (fun c => some (strToLower (c.group_name ++ "|" ++ c.group_human_name)))
      (·.by_group_names) hcompatG v.by_stable_id _).2 p hp hs _ rfl
  · intro q hq
    rw [hfilter] at hq
    rcases filterFold_index_mem mv derived
        (fun c => match c.source_name with
          | some s => if s ≠ "" then some (strToLower s) else none
          | none => none)
        (·.by_source_name) hcompatS v.by_stable_id _ q hq with hq | hq
    · simp [IndexedView.empty] at hq
    · obtain ⟨p, hp, hs, hkey, hv⟩ := hq
      cases hsn : p.2.source_name with
      | none =>
        rw [hsn] at hkey
        simp at hkey
      | some s =>
        rw [hsn] at hkey
        by_cases he : s = ""
        · rw [he] at hkey
          simp at hkey
        · have hkey2 : strToLower s = q.1 := by simpa [he] using hkey
          exact ⟨⟨s, by rw [hv, hsn], he, hkey2.symm⟩, p, hp, hs, hv⟩
  · intro p hp hs s hsn he
    rw [hfilter]
    refine (filterFold_index_key mv derived
      (fun c => match c.source_name with
        | some s => if s ≠ "" then some (strToLower s) else none
        | none => none)
      (·.by_source_name) hcompatS v.by_stable_id _).2 p hp hs _ ?_
    rw [hsn]
    simp [he]

/-- C7 witness: the filter characterization at the fixture view with novice
visibility and derived counters hidden. -/
theorem C7_filter_witness :
    (fixView.filter .NOVICE false).by_stable_id
      = fixView.by_stable_id.filter
          (fun p => p.2.is_visible .NOVICE && (false || !p.2.is_derived)) ∧
    (∀ p ∈ fixView.by_stable_id,
      (p.2.is_visible .NOVICE && (false || !p.2.is_derived)) = true →
      ∃ c, (strToLower p.2.machine_name, c)
        ∈ (fixView.filter .NOVICE false).by_machine_name) := by
  have h := C7_filter fixView .NOVICE false (by decide) (by decide)
  exact ⟨h.1, h.2.2.1⟩

/-! ## Helper lemmas for the cardinality analysis -/

theorem insertDedup_mem (d : Domain) (l : List Domain) (d0 : Domain) :
    d0 ∈ insertDedup d l ↔ d0 = d ∨ d0 ∈ l := by
  rw [insertDedup]
  by_cases hd : d ∈ l
  · rw [if_pos hd]
    constructor
    · exact Or.inr
    · intro h
      rcases h with h | h
      · rwa [h]
      · exact h
  · rw [if_neg hd]
    simp only [List.mem_append, List.mem_singleton]
    exact or_comm

theorem insertDedup_nodup (d : Domain) (l : List Domain) (h : l.Nodup) :
    (insertDedup d l).Nodup := by
  rw [insertDedup]
  by_cases hd : d ∈ l
  · rwa [if_pos hd]
  · rw [if_neg hd]
    refine List.Nodup.append h (List.nodup_singleton d) ?_
    intro x hx hx2
    rw [List.mem_singleton] at hx2
    subst hx2
    exact hd hx

theorem scaling_cardRelevant (s : String) (d : Domain)
    (h : scaling_constants s = some d) : cardRelevant s = true := by
  rw [scaling_constants.eq_def] at h
  split at h
  · cases h; decide
  · cases h; decide
  · cases h

/-- The loop state of the cardinality scan holds exactly the touched domains
and the present scaling constants of the processed names, without
duplicates. -/
theorem collectUses_spec (view : IndexedView) :
    ∀ (names : List String) (du su : List Domain),
      collectUses view names = some (du, su) →
      du.Nodup ∧ su.Nodup ∧
      (∀ d, d ∈ du ↔ touchesDomain view names d = true) ∧
      (∀ d, d ∈ su ↔ scaleListed names d = true)
  | [], du, su, h => by
    simp only [collectUses, Option.some.injEq, Prod.mk.injEq] at h
    obtain ⟨h1, h2⟩ := h
    subst h1; subst h2
    simp [touchesDomain, scaleListed]
  | s :: rest, du, su, h => by
    rw [collectUses] at h
    by_cases hskip : s ∈ other_constants || s.toList.contains '('
    · rw [if_pos hskip] at h
      obtain ⟨h1, h2, h3, h4⟩ := collectUses_spec view rest du su h
      have hrel : cardRelevant s = false := by
        rw [cardRelevant]
        rcases Bool.or_eq_true_iff.mp hskip with hx | hx
        · simp [hx]
        · have hx2 : Char.ofNat 40 ∈ s.data := by simpa using hx
          simp [hx2]
      have hscale : scaling_constants s = none := by
        cases hsc : scaling_constants s with
        | none => rfl
        | some d0 => exact absurd (scaling_cardRelevant s d0 hsc) (by simp [hrel])
      refine ⟨h1, h2, fun d => ?_, fun d => ?_⟩
      · rw [h3 d]
        simp [touchesDomain, nameDomain, hrel]
      · rw [h4 d]
        simp [scaleListed, hscale]
    · rw [if_neg hskip] at h
      have hskip2 : decide (s ∈ other_constants) = false
          ∧ s.toList.contains '(' = false := by
        constructor
        · by_cases hx : decide (s ∈ other_constants) = true
          · exact absurd (by simp [hx]) hskip
          · simpa using hx
        · by_cases hx : s.toList.contains '(' = true
          · have hx2 : Char.ofNat 40 ∈ s.data := by simpa using hx
            exact absurd (by simp [hx2]) hskip
          · simpa using hx
      have hrel : cardRelevant s = true := by
        rw [cardRelevant, hskip2.1, hskip2.2]
        rfl
      cases hsc : scaling_constants s with
      | some d0 =>
        simp only [hsc] at h
        cases hc : collectUses view rest with
        | none => simp only [hc] at h; cases h
        | some p =>
          obtain ⟨du0, su0⟩ := p
          simp only [hc, Option.some.injEq, Prod.mk.injEq] at h
          obtain ⟨h1, h2⟩ := h
          subst h1; subst h2
          obtain ⟨hn1, hn2, h3, h4⟩ := collectUses_spec view rest du0 su0 hc
          refine ⟨hn1, insertDedup_nodup _ _ hn2, fun d => ?_, fun d => ?_⟩
          · rw [h3 d]
            simp [touchesDomain, nameDomain, hrel, hsc]
          · rw [insertDedup_mem, h4 d]
            simp only [scaleListed, List.any_cons, Bool.or_eq_true_iff,
              decide_eq_true_eq, hsc, Option.some.injEq]
            constructor
            · rintro (hx | hx)
              · exact Or.inl hx.symm
              · exact Or.inr hx
            · rintro (hx | hx)
              · exact Or.inl hx.symm
              · exact Or.inr hx
      | none =>
        simp only [hsc] at h
        cases hl : view.get_by_machine_name s with
        | none => simp only [hl] at h; cases h
        | some vc =>
          simp only [hl] at h
          cases hb : vc.block_type with
          | none => simp only [hb] at h; cases h
          | some bt =>
            simp only [hb] at h
            cases hc : collectUses view rest with
            | none => simp only [hc] at h; cases h
            | some p =>
              obtain ⟨du0, su0⟩ := p
              simp only [hc, Option.some.injEq, Prod.mk.injEq] at h
              obtain ⟨h1, h2⟩ := h
              subst h1; subst h2
              obtain ⟨hn1, hn2, h3, h4⟩ := collectUses_spec view rest du0 su0 hc
              have hnd : nameDomain view s = some (blockDomain bt) := by
                simp [nameDomain, hrel, hsc, hl, hb]
              refine ⟨insertDedup_nodup _ _ hn1, hn2, fun d => ?_, fun d => ?_⟩
              · rw [insertDedup_mem, h3 d]
                simp only [touchesDomain, List.any_cons, Bool.or_eq_true_iff,
                  decide_eq_true_eq, hnd, Option.some.injEq]
                constructor
                · rintro (hx | hx)
                  · exact Or.inl hx.symm
                  · exact Or.inr hx
                · rintro (hx | hx)
                  · exact Or.inl hx.symm
                  · exact Or.inr hx
              · rw [h4 d]
                simp [scaleListed, hsc]

theorem countLoop_eq (su : List Domain) :
    ∀ (l : List Domain) (acc : Nat),
      l.foldl (fun acc d => if d = .GPU then acc
        else if d ∈ su then acc else acc + 1) acc
      = acc + (l.filter (fun d => !decide (d = Domain.GPU) && !decide (d ∈ su))).length
  | [], acc => by simp
  | d :: t, acc => by
    rw [List.foldl_cons]
    by_cases hg : d = Domain.GPU
    · rw [if_pos hg, countLoop_eq su t acc]
      have : (fun d => !decide (d = Domain.GPU) && !decide (d ∈ su)) d = false := by
        simp [hg]
      simp only [List.filter, this]
    · rw [if_neg hg]
      by_cases hm : d ∈ su
      · rw [if_pos hm, countLoop_eq su t acc]
        have : (fun d => !decide (d = Domain.GPU) && !decide (d ∈ su)) d = false := by
          simp [hg, hm]
        simp only [List.filter, this]
      · rw [if_neg hm, countLoop_eq su t (acc + 1)]
        have : (fun d => !decide (d = Domain.GPU) && !decide (d ∈ su)) d = true := by
          simp [hg, hm]
        simp only [List.filter, this, List.length_cons]
        omega

/-- C5: for every product view and counter, the cardinality validator emits
no error for native counters, unresolved equations and curated exceptions;
and whenever it completes on a derived counter with resolved equation r, the
number of errors is zero when the primitive operands of r touch at most one
domain, and otherwise exactly one per touched non-GPU domain whose scaling
constant is not syntactically present in r. -/
theorem C5_cardinality (view : IndexedView) (c : CounterView) :
    ((c.is_derived = false ∨ c.equation_ast_resolved = none ∨
        c.machine_name ∈ cardinality_exceptions) →
      counterCardinalityErrors view c = some 0) ∧
    (∀ r n, c.is_derived = true → c.equation_ast_resolved = some r →
      c.machine_name ∉ cardinality_exceptions →
      counterCardinalityErrors view c = some n →
      n = if (touchedFinset view (namesOf r)).card ≤ 1 then 0
          else missingScaleCount view (namesOf r)) := by
  constructor
  · intro h
    rcases h with h | h | h
    · simp [counterCardinalityErrors, h]
    · simp [counterCardinalityErrors, h]
    · by_cases h1 : (!c.is_derived || c.equation_ast_resolved.isNone) = true
      · simp [counterCardinalityErrors, h1]
      · simp [counterCardinalityErrors, h1, h]
  · intro r n hd hr hexc hcount
    rw [counterCardinalityErrors] at hcount
    have h1 : (!c.is_derived || c.equation_ast_resolved.isNone) = false := by
      rw [hd, hr]; rfl
    rw [h1] at hcount
    simp only [Bool.false_eq_true, if_false] at hcount
    rw [if_neg hexc] at hcount
    simp only [hr] at hcount
    cases hc : collectUses view (namesOf r) with
    | none => rw [hc] at hcount; cases hcount
    | some p =>
      obtain ⟨du, su⟩ := p
      simp only [hc] at hcount
      obtain ⟨hnd, hns, hdu, hsu⟩ := collectUses_spec view (namesOf r) du su hc
      have hfs : du.toFinset = touchedFinset view (namesOf r) := by
        ext d
        simp only [List.mem_toFinset, touchedFinset, Finset.mem_filter, Finset.mem_univ,
          true_and]
        exact hdu d
      have hlen : du.length = (touchedFinset view (namesOf r)).card := by
        rw [← hfs, List.toFinset_card_of_nodup hnd]
      by_cases hle : du.length ≤ 1
      · rw [if_pos hle] at hcount
        injection hcount with hn
        rw [if_pos (by rw [← hlen]; exact hle)]
        exact hn.symm
      · rw [if_neg hle] at hcount
        injection hcount with hn
        rw [if_neg (by rw [← hlen]; exact hle)]
        rw [← hn, countLoop_eq su du 0, Nat.zero_add]
        have hfn :
            (du.filter (fun d => !decide (d = Domain.GPU) && !decide (d ∈ su))).Nodup :=
          hnd.filter _
        rw [← List.toFinset_card_of_nodup hfn]
        rw [missingScaleCount]
        congr 1
        ext d
        simp only [List.mem_toFinset, List.mem_filter, Finset.mem_filter, Finset.mem_univ,
          true_and, Bool.and_eq_true, Bool.not_eq_true', decide_eq_false_iff_not]
        constructor
        · rintro ⟨hmem, hgpu, hnsu⟩
          refine ⟨(hdu d).mp hmem, hgpu, ?_⟩
          cases hx : scaleListed (namesOf r) d with
          | false => rfl
          | true => exact absurd ((hsu d).mpr hx) hnsu
        · rintro ⟨htd, hgpu, hsl⟩
          refine ⟨(hdu d).mpr htd, hgpu, fun hx => ?_⟩
          rw [(hsu d).mp hx] at hsl
          cases hsl

theorem C5_cardinality_witness :
    fixDerived.is_derived = true ∧
    fixDerived.equation_ast_resolved = some fixMixAst ∧
    fixDerived.machine_name ∉ cardinality_exceptions ∧
    counterCardinalityErrors fixView fixDerived = some 2 ∧
    (2 : Nat) = (if (touchedFinset fixView (namesOf fixMixAst)).card ≤ 1 then 0
      else missingScaleCount fixView (namesOf fixMixAst)) :=
  ⟨by decide, rfl, by decide, rfl,
    (C5_cardinality fixView fixDerived).2 fixMixAst 2 (by decide) rfl (by decide) rfl⟩

/-! ## Helper lemmas for the stable-ID analysis -/

theorem dictGetN_some_mem {β : Type} (k : Nat) (d : List (Nat × β)) (v : β)
    (h : dictGetN k d = some v) : (k, v) ∈ d := by
  rw [dictGetN] at h
  cases hf : d.find? (fun p => p.1 = k) with
  | none => rw [hf] at h; cases h
  | some q =>
    rw [hf] at h
    have hq := List.find?_some hf
    have hmem := List.mem_of_find?_eq_some hf
    simp only [decide_eq_true_eq] at hq
    simp at h
    have : q = (k, v) := by
      cases q
      simp only [Prod.mk.injEq]
      exact ⟨hq, h⟩
    rwa [this] at hmem

theorem dictGet_some_mem {β : Type} (k : String) (d : List (String × β)) (v : β)
    (h : dictGet k d = some v) : (k, v) ∈ d := by
  rw [dictGet] at h
  cases hf : d.find? (fun p => p.1 = k) with
  | none => rw [hf] at h; cases h
  | some q =>
    rw [hf] at h
    have hq := List.find?_some hf
    have hmem := List.mem_of_find?_eq_some hf
    simp only [decide_eq_true_eq] at hq
    simp at h
    have : q = (k, v) := by
      cases q
      simp only [Prod.mk.injEq]
      exact ⟨hq, h⟩
    rwa [this] at hmem

theorem dictGet_isSome_of_mem {β : Type} (k : String) (d : List (String × β)) (v : β)
    (h : (k, v) ∈ d) : (dictGet k d).isSome := by
  rw [dictGet]
  have hs : (d.find? (fun p => p.1 = k)).isSome := by
    rw [List.find?_isSome]
    exact ⟨(k, v), h, by simp⟩
  cases hf : d.find? (fun p => p.1 = k) with
  | none => rw [hf] at hs; simp at hs
  | some q => rfl

theorem dictGetN_insert_self {β : Type} (k : Nat) (v : β) :
    ∀ (d : List (Nat × β)), dictGetN k (dictInsertN k v d) = some v
  | [] => by simp [dictGetN, dictInsertN, List.find?]
  | (k0, v0) :: t => by
    simp only [dictInsertN]
    by_cases hk : k0 = k
    · rw [if_pos hk]
      simp [dictGetN, List.find?]
    · rw [if_neg hk]
      simp only [dictGetN, List.find?, decide_eq_false hk]
      exact dictGetN_insert_self k v t

theorem dictGetN_insert_other {β : Type} (k k2 : Nat) (v : β) (hk : k ≠ k2) :
    ∀ (d : List (Nat × β)), dictGetN k (dictInsertN k2 v d) = dictGetN k d
  | [] => by
    simp only [dictInsertN, dictGetN, List.find?, decide_eq_false (Ne.symm hk)]
  | (k0, v0) :: t => by
    simp only [dictInsertN]
    by_cases hk0 : k0 = k2
    · rw [if_pos hk0]
      have hne : ¬(k0 = k) := by rw [hk0]; exact Ne.symm hk
      simp only [dictGetN, List.find?, decide_eq_false (Ne.symm hk), decide_eq_false hne]
    · rw [if_neg hk0]
      simp only [dictGetN, List.find?]
      by_cases hq : k0 = k
      · simp only [decide_eq_true hq]
      · simp only [decide_eq_false hq]
        exact dictGetN_insert_other k k2 v hk t

theorem dictGet_insert_self {β : Type} (k : String) (v : β) :
    ∀ (d : List (String × β)), dictGet k (dictInsert k v d) = some v
  | [] => by simp [dictGet, dictInsert, List.find?]
  | (k0, v0) :: t => by
    simp only [dictInsert]
    by_cases hk : k0 = k
    · rw [if_pos hk]
      simp [dictGet, List.find?]
    · rw [if_neg hk]
      simp only [dictGet, List.find?, decide_eq_false hk]
      exact dictGet_insert_self k v t

theorem dictGet_insert_other {β : Type} (k k2 : String) (v : β) (hk : k ≠ k2) :
    ∀ (d : List (String × β)), dictGet k (dictInsert k2 v d) = dictGet k d
  | [] => by
    simp only [dictInsert, dictGet, List.find?, decide_eq_false (Ne.symm hk)]
  | (k0, v0) :: t => by
    simp only [dictInsert]
    by_cases hk0 : k0 = k2
    · rw [if_pos hk0]
      have hne : ¬(k0 = k) := by rw [hk0]; exact Ne.symm hk
      simp only [dictGet, List.find?, decide_eq_false (Ne.symm hk), decide_eq_false hne]
    · rw [if_neg hk0]
      simp only [dictGet, List.find?]
      by_cases hq : k0 = k
      · simp only [decide_eq_true hq]
      · simp only [decide_eq_false hq]
        exact dictGet_insert_other k k2 v hk t

theorem findAppend {α : Type} (p : α → Bool) :
    ∀ (l1 l2 : List α), (l1 ++ l2).find? p =
      match l1.find? p with
      | some a => some a
      | none => l2.find? p
  | [], l2 => by simp [List.find?]
  | a :: t, l2 => by
    simp only [List.cons_append, List.find?]
    cases hp : p a with
    | true => rfl
    | false => exact findAppend p t l2

theorem findRangeLeast (p : Nat → Bool) :
    ∀ (k i : Nat), (List.range k).find? p = some i → p i = true ∧ ∀ j, j < i → p j = false
  | 0, i, h => by simp [List.range_zero, List.find?] at h
  | k + 1, i, h => by
    rw [List.range_succ, findAppend] at h
    cases hf : (List.range k).find? p with
    | some a =>
      rw [hf] at h
      cases h
      exact findRangeLeast p k i hf
    | none =>
      rw [hf] at h
      simp only [List.find?] at h
      cases hp : p k with
      | false => rw [hp] at h; cases h
      | true =>
        rw [hp] at h
        cases h
        refine ⟨hp, fun j hj => ?_⟩
        have := List.find?_eq_none.mp hf j (List.mem_range.mpr hj)
        simpa using this

theorem foldlMax_init : ∀ (l : List Nat) (a : Nat), a ≤ l.foldl max a
  | [], a => le_refl a
  | x :: t, a => le_trans (le_max_left a x) (foldlMax_init t (max a x))

theorem foldlMax_le : ∀ (l : List Nat) (a x : Nat), x ∈ l → x ≤ l.foldl max a
  | [], _, x, hx => absurd hx (List.not_mem_nil x)
  | y :: t, a, x, hx => by
    rcases List.mem_cons.mp hx with hx | hx
    · subst hx
      exact le_trans (le_max_right a x) (foldlMax_init t (max a x))
    · exact foldlMax_le t (max a y) x hx

theorem mapSelf_eq {α : Type} (f : α → α) :
    ∀ (l : List α), (∀ c ∈ l, f c = c) → l.map f = l
  | [], _ => rfl
  | a :: t, h => by
    rw [List.map_cons, h a (List.mem_cons_self a t),
      mapSelf_eq f t (fun c hc => h c (List.mem_cons_of_mem a hc))]

theorem groupAppend_self (n : String) (c : CounterInfo) :
    ∀ (l : List (String × List CounterInfo)),
      ∃ g ∈ groupAppend n c l, g.1 = n ∧ g.2 ≠ []
  | [] => ⟨(n, [c]), List.mem_singleton.mpr rfl, rfl, by simp⟩
  | (n0, g0) :: t => by
    simp only [groupAppend]
    by_cases hn : n0 = n
    · rw [if_pos hn]
      exact ⟨(n0, g0 ++ [c]), List.mem_cons_self _ _, hn, by simp⟩
    · rw [if_neg hn]
      obtain ⟨g, hg, hgn, hne⟩ := groupAppend_self n c t
      exact ⟨g, List.mem_cons_of_mem _ hg, hgn, hne⟩

theorem groupAppend_preserve (n : String) (c : CounterInfo) (k : String) :
    ∀ (l : List (String × List CounterInfo)),
      (∃ g ∈ l, g.1 = k ∧ g.2 ≠ []) →
      ∃ g ∈ groupAppend n c l, g.1 = k ∧ g.2 ≠ []
  | [], h => by
    obtain ⟨g, hg, _⟩ := h
    exact absurd hg (List.not_mem_nil g)
  | (n0, g0) :: t, h => by
    obtain ⟨g, hg, hgk, hgne⟩ := h
    simp only [groupAppend]
    by_cases hn : n0 = n
    · rw [if_pos hn]
      rcases List.mem_cons.mp hg with hg | hg
      · subst hg
        exact ⟨(n0, g0 ++ [c]), List.mem_cons_self _ _, hgk, by simp⟩
      · exact ⟨g, List.mem_cons_of_mem _ hg, hgk, hgne⟩
    · rw [if_neg hn]
      rcases List.mem_cons.mp hg with hg | hg
      · subst hg
        exact ⟨(n0, g0), List.mem_cons_self _ _, hgk, hgne⟩
      · obtain ⟨g2, hg2, h2⟩ := groupAppend_preserve n c k t ⟨g, hg, hgk, hgne⟩
        exact ⟨g2, List.mem_cons_of_mem _ hg2, h2⟩

theorem scanStep_none (st : StableIdState) (c : CounterInfo) (h : c.stable_id = none) :
    stableIdScanStep st c =
      { st with missing_ids := groupAppend c.machine_name c st.missing_ids } := by
  rw [stableIdScanStep.eq_def, h]

theorem scanStep_some (st : StableIdState) (c : CounterInfo) (sid : Nat)
    (h : c.stable_id = some sid) :
    stableIdScanStep st c =
      { found_ids :=
          match dictGetN sid st.found_ids with
          | none => dictInsertN sid c st.found_ids
          | some _ => st.found_ids
        found_names :=
          match dictGet c.machine_name st.found_names with
          | none => dictInsert c.machine_name c st.found_names
          | some _ => st.found_names
        missing_ids := st.missing_ids
        errors := st.errors +
          (match dictGetN sid st.found_ids with
           | none => 0
           | some c0 => if c0.machine_name ≠ c.machine_name then 1 else 0) +
          (match dictGet c.machine_name st.found_names with
           | none => 0
           | some c0 => if c0.stable_id ≠ some sid then 1 else 0) } := by
  rw [stableIdScanStep.eq_def, h]

theorem scanStep_errors_le (st : StableIdState) (c : CounterInfo) :
    st.errors ≤ (stableIdScanStep st c).errors := by
  cases hsid : c.stable_id with
  | none => rw [scanStep_none st c hsid]
  | some sid =>
    rw [scanStep_some st c sid hsid]
    exact Nat.le_trans (Nat.le_add_right _ _) (Nat.le_add_right _ _)

theorem scanStep_ids_persist (st : StableIdState) (c : CounterInfo) (sid2 : Nat)
    (c0 : CounterInfo) (h : dictGetN sid2 st.found_ids = some c0) :
    dictGetN sid2 (stableIdScanStep st c).found_ids = some c0 := by
  cases hsid : c.stable_id with
  | none => rw [scanStep_none st c hsid]; exact h
  | some sid =>
    rw [scanStep_some st c sid hsid]
    cases hid : dictGetN sid st.found_ids with
    | some c1 => exact h
    | none =>
      have hne : sid2 ≠ sid := by
        intro he
        rw [he, hid] at h
        cases h
      show dictGetN sid2 (dictInsertN sid c st.found_ids) = some c0
      rw [dictGetN_insert_other sid2 sid c hne st.found_ids]
      exact h

theorem scanStep_names_persist (st : StableIdState) (c : CounterInfo) (k : String)
    (c0 : CounterInfo) (h : dictGet k st.found_names = some c0) :
    dictGet k (stableIdScanStep st c).found_names = some c0 := by
  cases hsid : c.stable_id with
  | none => rw [scanStep_none st c hsid]; exact h
  | some sid =>
    rw [scanStep_some st c sid hsid]
    cases hname : dictGet c.machine_name st.found_names with
    | some c1 => exact h
    | none =>
      have hne : k ≠ c.machine_name := by
        intro he
        rw [he, hname] at h
        cases h
      show dictGet k (dictInsert c.machine_name c st.found_names) = some c0
      rw [dictGet_insert_other k c.machine_name c hne st.found_names]
      exact h

theorem scanStep_missing_persist (st : StableIdState) (c : CounterInfo) (k : String)
    (h : ∃ g ∈ st.missing_ids, g.1 = k ∧ g.2 ≠ []) :
    ∃ g ∈ (stableIdScanStep st c).missing_ids, g.1 = k ∧ g.2 ≠ [] := by
  cases hsid : c.stable_id with
  | none =>
    rw [scanStep_none st c hsid]
    exact groupAppend_preserve c.machine_name c k st.missing_ids h
  | some sid => rw [scanStep_some st c sid hsid]; exact h

theorem scanStep_ids_provenance (st : StableIdState) (c : CounterInfo) (sid2 : Nat)
    (c0 : CounterInfo) (h : dictGetN sid2 (stableIdScanStep st c).found_ids = some c0) :
    dictGetN sid2 st.found_ids = some c0 ∨ (c0 = c ∧ c.stable_id = some sid2) := by
  cases hsid : c.stable_id with
  | none => rw [scanStep_none st c hsid] at h; exact Or.inl h
  | some sid =>
    rw [scanStep_some st c sid hsid] at h
    cases hid : dictGetN sid st.found_ids with
    | some c1 => rw [hid] at h; exact Or.inl h
    | none =>
      rw [hid] at h
      by_cases hne : sid2 = sid
      · subst hne
        rw [dictGetN_insert_self sid2 c st.found_ids] at h
        exact Or.inr ⟨(Option.some.inj h).symm, rfl⟩
      · rw [dictGetN_insert_other sid2 sid c hne st.found_ids] at h
        exact Or.inl h

theorem scanStep_names_provenance (st : StableIdState) (c : CounterInfo) (k : String)
    (c0 : CounterInfo) (h : dictGet k (stableIdScanStep st c).found_names = some c0) :
    dictGet k st.found_names = some c0 ∨
      (c0 = c ∧ c.machine_name = k ∧ c.stable_id.isSome) := by
  cases hsid : c.stable_id with
  | none => rw [scanStep_none st c hsid] at h; exact Or.inl h
  | some sid =>
    rw [scanStep_some st c sid hsid] at h
    cases hname : dictGet c.machine_name st.found_names with
    | some c1 => rw [hname] at h; exact Or.inl h
    | none =>
      rw [hname] at h
      by_cases hne : k = c.machine_name
      · subst hne
        rw [dictGet_insert_self c.machine_name c st.found_names] at h
        exact Or.inr ⟨(Option.some.inj h).symm, rfl, rfl⟩
      · rw [dictGet_insert_other k c.machine_name c hne st.found_names] at h
        exact Or.inl h

theorem scanStep_covers_id (st : StableIdState) (c : CounterInfo) (sid : Nat)
    (h : c.stable_id = some sid) :
    ∃ c0, dictGetN sid (stableIdScanStep st c).found_ids = some c0 := by
  rw [scanStep_some st c sid h]
  cases hid : dictGetN sid st.found_ids with
  | some c1 => exact ⟨c1, hid⟩
  | none => exact ⟨c, dictGetN_insert_self sid c st.found_ids⟩

theorem scanStep_covers_name (st : StableIdState) (c : CounterInfo) (sid : Nat)
    (h : c.stable_id = some sid) :
    ∃ c0, dictGet c.machine_name (stableIdScanStep st c).found_names = some c0 := by
  rw [scanStep_some st c sid h]
  cases hname : dictGet c.machine_name st.found_names with
  | some c1 => exact ⟨c1, hname⟩
  | none => exact ⟨c, dictGet_insert_self c.machine_name c st.found_names⟩

theorem scanStep_covers_missing (st : StableIdState) (c : CounterInfo)
    (h : c.stable_id = none) :
    ∃ g ∈ (stableIdScanStep st c).missing_ids, g.1 = c.machine_name ∧ g.2 ≠ [] := by
  rw [scanStep_none st c h]
  exact groupAppend_self c.machine_name c st.missing_ids

theorem scanStep_no_error (st : StableIdState) (c : CounterInfo) (sid : Nat)
    (hsid : c.stable_id = some sid)
    (herr : (stableIdScanStep st c).errors = st.errors) :
    (∃ c0, dictGetN sid (stableIdScanStep st c).found_ids = some c0 ∧
      c0.machine_name = c.machine_name) ∧
    (∃ c1, dictGet c.machine_name (stableIdScanStep st c).found_names = some c1 ∧
      c1.stable_id = some sid) := by
  have herr2 : st.errors +
      (match dictGetN sid st.found_ids with
       | none => 0
       | some c0 => if c0.machine_name ≠ c.machine_name then 1 else 0) +
      (match dictGet c.machine_name st.found_names with
       | none => 0
       | some c0 => if c0.stable_id ≠ some sid then 1 else 0) = st.errors := by
    rw [scanStep_some st c sid hsid] at herr
    exact herr
  constructor
  · cases hid : dictGetN sid st.found_ids with
    | none =>
      refine ⟨c, ?_, rfl⟩
      rw [scanStep_some st c sid hsid]
      simp only [hid]
      exact dictGetN_insert_self sid c st.found_ids
    | some c0 =>
      refine ⟨c0, ?_, ?_⟩
      · rw [scanStep_some st c sid hsid]
        simp only [hid]
      · simp only [hid] at herr2
        cases hname : dictGet c.machine_name st.found_names with
        | none =>
          simp only [hname] at herr2
          by_contra hne
          rw [if_pos hne] at herr2
          omega
        | some c1 =>
          simp only [hname] at herr2
          by_contra hne
          rw [if_pos hne] at herr2
          by_cases h1 : c1.stable_id ≠ some sid
          · rw [if_pos h1] at herr2; omega
          · rw [if_neg h1] at herr2; omega
  · cases hname : dictGet c.machine_name st.found_names with
    | none =>
      refine ⟨c, ?_, hsid⟩
      rw [scanStep_some st c sid hsid]
      simp only [hname]
      exact dictGet_insert_self c.machine_name c st.found_names
    | some c1 =>
      refine ⟨c1, ?_, ?_⟩
      · rw [scanStep_some st c sid hsid]
        simp only [hname]
      · simp only [hname] at herr2
        cases hid : dictGetN sid st.found_ids with
        | none =>
          simp only [hid] at herr2
          by_contra hne
          rw [if_pos hne] at herr2
          omega
        | some c0 =>
          simp only [hid] at herr2
          by_contra hne
          rw [if_pos hne] at herr2
          by_cases h0 : c0.machine_name ≠ c.machine_name
          · rw [if_pos h0] at herr2; omega
          · rw [if_neg h0] at herr2; omega

theorem scanFold_errors_le : ∀ (l : List CounterInfo) (st : StableIdState),
    st.errors ≤ (l.foldl stableIdScanStep st).errors
  | [], st => le_refl _
  | c :: t, st => by
    rw [List.foldl_cons]
    exact le_trans (scanStep_errors_le st c) (scanFold_errors_le t (stableIdScanStep st c))

theorem scanFold_ids_persist :
    ∀ (l : List CounterInfo) (st : StableIdState) (sid : Nat) (c0 : CounterInfo),
      dictGetN sid st.found_ids = some c0 →
      dictGetN sid ((l.foldl stableIdScanStep st).found_ids) = some c0
  | [], _, _, _, h => h
  | c :: t, st, sid, c0, h => by
    rw [List.foldl_cons]
    exact scanFold_ids_persist t _ sid c0 (scanStep_ids_persist st c sid c0 h)

theorem scanFold_names_persist :
    ∀ (l : List CounterInfo) (st : StableIdState) (k : String) (c0 : CounterInfo),
      dictGet k st.found_names = some c0 →
      dictGet k ((l.foldl stableIdScanStep st).found_names) = some c0
  | [], _, _, _, h => h
  | c :: t, st, k, c0, h => by
    rw [List.foldl_cons]
    exact scanFold_names_persist t _ k c0 (scanStep_names_persist st c k c0 h)

theorem scanFold_missing_persist :
    ∀ (l : List CounterInfo) (st : StableIdState) (k : String),
      (∃ g ∈ st.missing_ids, g.1 = k ∧ g.2 ≠ []) →
      ∃ g ∈ (l.foldl stableIdScanStep st).missing_ids, g.1 = k ∧ g.2 ≠ []
  | [], _, _, h => h
  | c :: t, st, k, h => by
    rw [List.foldl_cons]
    exact scanFold_missing_persist t _ k (scanStep_missing_persist st c k h)

theorem scanFold_ids_provenance :
    ∀ (l : List CounterInfo) (st : StableIdState) (sid : Nat) (c0 : CounterInfo),
      dictGetN sid ((l.foldl stableIdScanStep st).found_ids) = some c0 →
      dictGetN sid st.found_ids = some c0 ∨ (c0 ∈ l ∧ c0.stable_id = some sid)
  | [], _, _, _, h => Or.inl h
  | c :: t, st, sid, c0, h => by
    rw [List.foldl_cons] at h
    rcases scanFold_ids_provenance t _ sid c0 h with h1 | h1
    · rcases scanStep_ids_provenance st c sid c0 h1 with h2 | h2
      · exact Or.inl h2
      · rcases h2 with ⟨rfl, h2⟩
        exact Or.inr ⟨List.mem_cons_self _ t, h2⟩
    · exact Or.inr ⟨List.mem_cons_of_mem c h1.1, h1.2⟩

theorem scanFold_names_provenance :
    ∀ (l : List CounterInfo) (st : StableIdState) (k : String) (c0 : CounterInfo),
      dictGet k ((l.foldl stableIdScanStep st).found_names) = some c0 →
      dictGet k st.found_names = some c0 ∨
        (c0 ∈ l ∧ c0.machine_name = k ∧ c0.stable_id.isSome)
  | [], _, _, _, h => Or.inl h
  | c :: t, st, k, c0, h => by
    rw [List.foldl_cons] at h
    rcases scanFold_names_provenance t _ k c0 h with h1 | h1
    · rcases scanStep_names_provenance st c k c0 h1 with h2 | h2
      · exact Or.inl h2
      · rcases h2 with ⟨rfl, h2a, h2b⟩
        exact Or.inr ⟨List.mem_cons_self _ t, h2a, h2b⟩
    · exact Or.inr ⟨List.mem_cons_of_mem c h1.1, h1.2⟩

theorem scanFold_covers_id :
    ∀ (l : List CounterInfo) (st : StableIdState),
      ∀ c ∈ l, ∀ sid, c.stable_id = some sid →
        ∃ c0, dictGetN sid ((l.foldl stableIdScanStep st).found_ids) = some c0
  | [], _, c, hc, _, _ => absurd hc (List.not_mem_nil c)
  | c1 :: t, st, c, hc, sid, hsid => by
    rw [List.foldl_cons]
    rcases List.mem_cons.mp hc with hc | hc
    · subst hc
      obtain ⟨c0, h0⟩ := scanStep_covers_id st c sid hsid
      exact ⟨c0, scanFold_ids_persist t _ sid c0 h0⟩
    · exact scanFold_covers_id t _ c hc sid hsid

theorem scanFold_covers_name :
    ∀ (l : List CounterInfo) (st : StableIdState),
      ∀ c ∈ l, ∀ sid, c.stable_id = some sid →
        ∃ c0, dictGet c.machine_name ((l.foldl stableIdScanStep st).found_names) = some c0
  | [], _, c, hc, _, _ => absurd hc (List.not_mem_nil c)
  | c1 :: t, st, c, hc, sid, hsid => by
    rw [List.foldl_cons]
    rcases List.mem_cons.mp hc with hc | hc
    · subst hc
      obtain ⟨c0, h0⟩ := scanStep_covers_name st c sid hsid
      exact ⟨c0, scanFold_names_persist t _ c.machine_name c0 h0⟩
    · exact scanFold_covers_name t _ c hc sid hsid

theorem scanFold_covers_missing :
    ∀ (l : List CounterInfo) (st : StableIdState),
      ∀ c ∈ l, c.stable_id = none →
        ∃ g ∈ (l.foldl stableIdScanStep st).missing_ids, g.1 = c.machine_name ∧ g.2 ≠ []
  | [], _, c, hc, _ => absurd hc (List.not_mem_nil c)
  | c1 :: t, st, c, hc, hsid => by
    rw [List.foldl_cons]
    rcases List.mem_cons.mp hc with hc | hc
    · subst hc
      exact scanFold_missing_persist t _ c.machine_name (scanStep_covers_missing st c hsid)
    · exact scanFold_covers_missing t _ c hc hsid

theorem scanFold_no_error :
    ∀ (l : List CounterInfo) (st : StableIdState),
      (l.foldl stableIdScanStep st).errors = st.errors →
      ∀ c ∈ l, ∀ sid, c.stable_id = some sid →
        (∃ c0, dictGetN sid ((l.foldl stableIdScanStep st).found_ids) = some c0 ∧
          c0.machine_name = c.machine_name) ∧
        (∃ c1, dictGet c.machine_name ((l.foldl stableIdScanStep st).found_names) = some c1 ∧
          c1.stable_id = some sid)
  | [], _, _, c, hc, _, _ => absurd hc (List.not_mem_nil c)
  | c1 :: t, st, herr, c, hc, sid, hsid => by
    rw [List.foldl_cons] at herr ⊢
    have hstep : (stableIdScanStep st c1).errors = st.errors := by
      have h1 := scanStep_errors_le st c1
      have h2 := scanFold_errors_le t (stableIdScanStep st c1)
      omega
    have hrest : (t.foldl stableIdScanStep (stableIdScanStep st c1)).errors
        = (stableIdScanStep st c1).errors := by
      rw [hstep]
      exact herr
    rcases List.mem_cons.mp hc with hc | hc
    · subst hc
      obtain ⟨⟨c0, h0, h0n⟩, ⟨c2, h2, h2s⟩⟩ := scanStep_no_error st c sid hsid hstep
      exact ⟨⟨c0, scanFold_ids_persist t _ sid c0 h0, h0n⟩,
        ⟨c2, scanFold_names_persist t _ c.machine_name c2 h2, h2s⟩⟩
    · exact scanFold_no_error t _ hrest c hc sid hsid

theorem scanFold_missing_nil :
    ∀ (l : List CounterInfo) (st : StableIdState),
      (∀ c ∈ l, c.stable_id.isSome) →
      (l.foldl stableIdScanStep st).missing_ids = st.missing_ids
  | [], _, _ => rfl
  | c :: t, st, h => by
    rw [List.foldl_cons]
    have hsome := h c (List.mem_cons_self c t)
    cases hsid : c.stable_id with
    | none => rw [hsid] at hsome; cases hsome
    | some sid =>
      rw [scanFold_missing_nil t _ (fun c2 hc2 => h c2 (List.mem_cons_of_mem c hc2)),
        scanStep_some st c sid hsid]

theorem getUnassigned_spec (found : List (Nat × CounterInfo)) (i : Nat)
    (h : get_unassigned_id found = some i) :
    dictGetN i found = none ∧ ∀ j, j < i → (dictGetN j found).isSome := by
  cases found with
  | nil => rw [get_unassigned_id] at h; cases h
  | cons q t =>
    have h2 : (((List.range ((((q :: t).map Prod.fst).foldl max 0) + 2)).find?
        (fun x => (dictGetN x (q :: t)).isNone)).getD 0) = i := Option.some.inj h
    have hp : (dictGetN (((q :: t).map Prod.fst).foldl max 0 + 1) (q :: t)).isNone = true := by
      cases hg : dictGetN (((q :: t).map Prod.fst).foldl max 0 + 1) (q :: t) with
      | none => rfl
      | some c0 =>
        have hmem := dictGetN_some_mem _ (q :: t) c0 hg
        have hkey : (((q :: t).map Prod.fst).foldl max 0 + 1) ∈ (q :: t).map Prod.fst :=
          List.mem_map.mpr ⟨(((q :: t).map Prod.fst).foldl max 0 + 1, c0), hmem, rfl⟩
        have := foldlMax_le ((q :: t).map Prod.fst) 0 _ hkey
        omega
    have hfind : (List.range ((((q :: t).map Prod.fst).foldl max 0) + 2)).find?
        (fun x => (dictGetN x (q :: t)).isNone) ≠ none := by
      intro hn
      have := List.find?_eq_none.mp hn (((q :: t).map Prod.fst).foldl max 0 + 1)
        (List.mem_range.mpr (by omega))
      rw [hp] at this
      exact this rfl
    cases hf : (List.range ((((q :: t).map Prod.fst).foldl max 0) + 2)).find?
        (fun x => (dictGetN x (q :: t)).isNone) with
    | none => exact absurd hf hfind
    | some i0 =>
      rw [hf] at h2
      simp only [Option.getD_some] at h2
      subst h2
      obtain ⟨hpi, hlt⟩ := findRangeLeast _ _ _ hf
      constructor
      · simpa using hpi
      · intro j hj
        have hj2 := hlt j hj
        cases hg : dictGetN j (q :: t) with
        | none => rw [hg] at hj2; simp at hj2
        | some c0 => rfl

theorem assignLoop_le (st : StableIdState) :
    ∀ (l : List (String × List CounterInfo)) (acc res : Nat × List (String × Option Nat)),
      List.foldlM (fun acc g =>
        match dictGet g.1 st.found_names with
        | some c0 => some (acc.1 + g.2.length, acc.2 ++ [(g.1, c0.stable_id)])
        | none =>
          match get_unassigned_id st.found_ids with
          | none => none
          | some i => some (acc.1 + g.2.length, acc.2 ++ [(g.1, some i)])) acc l
        = some res →
      acc.1 ≤ res.1 ∧ (∀ g ∈ l, acc.1 + g.2.length ≤ res.1)
  | [], acc, res, h => by
    simp only [List.foldlM_nil, pure, Option.pure_def, Option.some.injEq] at h
    subst h
    exact ⟨le_refl _, fun g hg => absurd hg (List.not_mem_nil g)⟩
  | g :: t, acc, res, h => by
    rw [List.foldlM_cons] at h
    cases hg : dictGet g.1 st.found_names with
    | some c0 =>
      rw [hg] at h
      obtain ⟨h1, h2⟩ := assignLoop_le st t (acc.1 + g.2.length, acc.2 ++ [(g.1, c0.stable_id)]) res h
      refine ⟨by omega, fun g2 hg2 => ?_⟩
      rcases List.mem_cons.mp hg2 with hg2 | hg2
      · subst hg2; omega
      · have := h2 g2 hg2
        simp only at this
        omega
    | none =>
      rw [hg] at h
      obtain hu | ⟨i, hu⟩ := Option.eq_none_or_eq_some (get_unassigned_id st.found_ids)
      · nth_rewrite 1 [hu] at h
        cases h
      · nth_rewrite 1 [hu] at h
        obtain ⟨h1, h2⟩ := assignLoop_le st t (acc.1 + g.2.length, acc.2 ++ [(g.1, some i)]) res h
        refine ⟨by omega, fun g2 hg2 => ?_⟩
        rcases List.mem_cons.mp hg2 with hg2 | hg2
        · subst hg2; omega
        · have := h2 g2 hg2
          simp only at this
          omega

theorem assignLoop_patch (st : StableIdState) :
    ∀ (l : List (String × List CounterInfo)) (acc res : Nat × List (String × Option Nat)),
      List.foldlM (fun acc g =>
        match dictGet g.1 st.found_names with
        | some c0 => some (acc.1 + g.2.length, acc.2 ++ [(g.1, c0.stable_id)])
        | none =>
          match get_unassigned_id st.found_ids with
          | none => none
          | some i => some (acc.1 + g.2.length, acc.2 ++ [(g.1, some i)])) acc l
        = some res →
      (∀ q ∈ acc.2, q ∈ res.2) ∧
      (∀ q ∈ res.2, q ∈ acc.2 ∨
        ((∃ c0, dictGet q.1 st.found_names = some c0 ∧ q.2 = c0.stable_id) ∨
         (dictGet q.1 st.found_names = none ∧
           ∃ i, get_unassigned_id st.found_ids = some i ∧ q.2 = some i))) ∧
      (∀ g ∈ l, ∃ v, (g.1, v) ∈ res.2)
  | [], acc, res, h => by
    simp only [List.foldlM_nil, pure, Option.pure_def, Option.some.injEq] at h
    subst h
    exact ⟨fun q hq => hq, fun q hq => Or.inl hq,
      fun g hg => absurd hg (List.not_mem_nil g)⟩
  | g :: t, acc, res, h => by
    rw [List.foldlM_cons] at h
    cases hg : dictGet g.1 st.found_names with
    | some c0 =>
      rw [hg] at h
      obtain ⟨hpers, hdich, hkeys⟩ :=
        assignLoop_patch st t (acc.1 + g.2.length, acc.2 ++ [(g.1, c0.stable_id)]) res h
      refine ⟨fun q hq => hpers q (List.mem_append_left _ hq), fun q hq => ?_,
        fun g2 hg2 => ?_⟩
      · rcases hdich q hq with hq2 | hq2
        · simp only [List.mem_append, List.mem_singleton] at hq2
          rcases hq2 with hq2 | hq2
          · exact Or.inl hq2
          · subst hq2
            exact Or.inr (Or.inl ⟨c0, hg, rfl⟩)
        · exact Or.inr hq2
      · rcases List.mem_cons.mp hg2 with hg2 | hg2
        · subst hg2
          exact ⟨c0.stable_id, hpers _ (List.mem_append_right _ (List.mem_singleton.mpr rfl))⟩
        · exact hkeys g2 hg2
    | none =>
      rw [hg] at h
      obtain hu | ⟨i, hu⟩ := Option.eq_none_or_eq_some (get_unassigned_id st.found_ids)
      · nth_rewrite 1 [hu] at h
        cases h
      · nth_rewrite 1 [hu] at h
        obtain ⟨hpers, hdich, hkeys⟩ :=
          assignLoop_patch st t (acc.1 + g.2.length, acc.2 ++ [(g.1, some i)]) res h
        refine ⟨fun q hq => hpers q (List.mem_append_left _ hq), fun q hq => ?_,
          fun g2 hg2 => ?_⟩
        · rcases hdich q hq with hq2 | hq2
          · simp only [List.mem_append, List.mem_singleton] at hq2
            rcases hq2 with hq2 | hq2
            · exact Or.inl hq2
            · subst hq2
              exact Or.inr (Or.inr ⟨hg, i, hu, rfl⟩)
          · exact Or.inr hq2
        · rcases List.mem_cons.mp hg2 with hg2 | hg2
          · subst hg2
            exact ⟨some i, hpers _ (List.mem_append_right _ (List.mem_singleton.mpr rfl))⟩
          · exact hkeys g2 hg2

/-- C8: whenever validate_stable_ids returns, a zero error count certifies
that stable IDs and machine names determine each other across the input and
that no entry was missing an ID; entries that had an ID are returned
unchanged in place; every entry with no ID is patched with a suggestion that
either reuses the ID of some entry of the input sharing its machine name or,
when no entry with that machine name carries an ID, is the lowest ID not
among the IDs present in the input - computed without regard to suggestions
made for other machine names in the same pass; the patched database has an ID
everywhere, so a second run assigns nothing and returns it unchanged. -/
theorem C8_stable_ids (db : List CounterInfo) (n : Nat) (db2 : List CounterInfo)
    (h : validate_stable_ids db = some (n, db2)) :
    (n = 0 →
      (∀ c1 ∈ db, ∀ c2 ∈ db, ∀ sid1 sid2, c1.stable_id = some sid1 →
        c2.stable_id = some sid2 →
        ((sid1 = sid2 → c1.machine_name = c2.machine_name) ∧
         (c1.machine_name = c2.machine_name → sid1 = sid2))) ∧
      ∀ c ∈ db, c.stable_id.isSome) ∧
    (∀ (i : Nat) (c : CounterInfo), db[i]? = some c → c.stable_id.isSome →
      db2[i]? = some c) ∧
    (∀ (i : Nat) (c : CounterInfo), db[i]? = some c → c.stable_id = none →
      ∃ s, db2[i]? = some { c with stable_id := some s } ∧
        ((∃ c0 ∈ db, c0.machine_name = c.machine_name ∧ c0.stable_id = some s) ∨
         ((∀ c0 ∈ db, c0.machine_name = c.machine_name → c0.stable_id = none) ∧
          (∀ c0 ∈ db, c0.stable_id ≠ some s) ∧
          (∀ j, j < s → ∃ c0 ∈ db, c0.stable_id = some j)))) ∧
    (∀ c2 ∈ db2, c2.stable_id.isSome) ∧
    validate_stable_ids db2 = some ((stableIdScan db2).errors, db2) := by
  cases hassign : stableIdAssignments (stableIdScan db) with
  | none =>
    rw [validate_stable_ids] at h
    simp only [hassign] at h
    cases h
  | some p =>
    obtain ⟨e2, patch⟩ := p
    rw [validate_stable_ids] at h
    simp only [hassign, Option.some.injEq, Prod.mk.injEq] at h
    obtain ⟨hn, hdb2⟩ := h
    rw [stableIdAssignments] at hassign
    have hsugg : ∀ c ∈ db, c.stable_id = none →
        ∃ s, dictGet c.machine_name patch = some (some s) ∧
          ((∃ c0 ∈ db, c0.machine_name = c.machine_name ∧ c0.stable_id = some s) ∨
           ((∀ c0 ∈ db, c0.machine_name = c.machine_name → c0.stable_id = none) ∧
            (∀ c0 ∈ db, c0.stable_id ≠ some s) ∧
            (∀ j, j < s → ∃ c0 ∈ db, c0.stable_id = some j))) := by
      intro c hc hcnone
      obtain ⟨g, hg, hgk, hgne⟩ :=
        scanFold_covers_missing db ⟨[], [], [], 0⟩ c hc hcnone
      obtain ⟨hpers, hdich, hkeys⟩ :=
        assignLoop_patch (stableIdScan db) (stableIdScan db).missing_ids
          (0, []) (e2, patch) hassign
      obtain ⟨v, hv⟩ := hkeys g hg
      rw [hgk] at hv
      obtain ⟨v2, hv2⟩ := Option.isSome_iff_exists.mp
        (dictGet_isSome_of_mem c.machine_name patch v hv)
      have hv2mem := dictGet_some_mem c.machine_name patch v2 hv2
      have hq := hdich (c.machine_name, v2) hv2mem
      simp only at hq
      rcases hq with hq | hq
      · exact absurd hq (List.not_mem_nil _)
      rcases hq with ⟨c0, hc0get, hv2eq⟩ | ⟨hfget, i0, hu, hv2eq⟩
      · rcases scanFold_names_provenance db ⟨[], [], [], 0⟩ c.machine_name c0 hc0get
          with hinit | ⟨hc0mem, hc0name, hc0some⟩
        · cases hinit
        · obtain ⟨s0, hs0⟩ := Option.isSome_iff_exists.mp hc0some
          refine ⟨s0, ?_, Or.inl ⟨c0, hc0mem, hc0name, hs0⟩⟩
          rw [hv2, hv2eq, hs0]
      · obtain ⟨hi0none, hi0lt⟩ := getUnassigned_spec (stableIdScan db).found_ids i0 hu
        refine ⟨i0, by rw [hv2, hv2eq], Or.inr ⟨?_, ?_, ?_⟩⟩
        · intro c0 hc0 hc0name
          cases hc0sid : c0.stable_id with
          | none => rfl
          | some sid =>
            obtain ⟨x, hx⟩ := scanFold_covers_name db ⟨[], [], [], 0⟩ c0 hc0 sid hc0sid
            rw [hc0name] at hx
            have hx2 : dictGet c.machine_name (stableIdScan db).found_names = some x := hx
            rw [hx2] at hfget
            cases hfget
        · intro c0 hc0 hc0sid
          obtain ⟨x, hx⟩ := scanFold_covers_id db ⟨[], [], [], 0⟩ c0 hc0 i0 hc0sid
          have hx2 : dictGetN i0 (stableIdScan db).found_ids = some x := hx
          rw [hx2] at hi0none
          cases hi0none
        · intro j hj
          obtain ⟨x, hx⟩ := Option.isSome_iff_exists.mp (hi0lt j hj)
          rcases scanFold_ids_provenance db ⟨[], [], [], 0⟩ j x hx
            with hinit | ⟨hxmem, hxsid⟩
          · cases hinit
          · exact ⟨x, hxmem, hxsid⟩
    have hall2 : ∀ c2 ∈ db2, c2.stable_id.isSome := by
      intro c2 hc2
      rw [← hdb2] at hc2
      obtain ⟨c, hc, hfc⟩ := List.mem_map.mp hc2
      cases hcsid : c.stable_id with
      | some sid =>
        simp only [hcsid] at hfc
        rw [← hfc, hcsid]
        rfl
      | none =>
        obtain ⟨s, hs, _⟩ := hsugg c hc hcsid
        simp only [hcsid, hs] at hfc
        rw [← hfc]
        rfl
    refine ⟨?_, ?_, ?_, hall2, ?_⟩
    · intro hzero
      have herr0 : (stableIdScan db).errors = 0 := by omega
      have hcons := scanFold_no_error db ⟨[], [], [], 0⟩ herr0
      constructor
      · intro c1 hc1 c2 hc2 sid1 sid2 hs1 hs2
        obtain ⟨⟨d1, hd1, hd1n⟩, ⟨e1, he1, he1s⟩⟩ := hcons c1 hc1 sid1 hs1
        obtain ⟨⟨d2, hd2, hd2n⟩, ⟨f2, hf2, hf2s⟩⟩ := hcons c2 hc2 sid2 hs2
        constructor
        · intro hseq
          subst hseq
          rw [hd1] at hd2
          rw [← hd1n, ← hd2n, Option.some.inj hd2]
        · intro hneq
          rw [hneq] at he1
          rw [he1] at hf2
          have hef := Option.some.inj hf2
          rw [← hef] at hf2s
          rw [he1s] at hf2s
          exact Option.some.inj hf2s
      · intro c hc
        cases hcsid : c.stable_id with
        | some sid => rfl
        | none =>
          obtain ⟨g, hg, hgk, hgne⟩ :=
            scanFold_covers_missing db ⟨[], [], [], 0⟩ c hc hcsid
          have hle := (assignLoop_le (stableIdScan db) (stableIdScan db).missing_ids
            (0, []) (e2, patch) hassign).2 g hg
          simp only at hle
          have hlen : g.2.length = 0 := by omega
          exact absurd (List.length_eq_zero.mp hlen) hgne
    · intro i c hi hsome
      rw [← hdb2, List.getElem?_map, hi]
      obtain ⟨sid, hsid⟩ := Option.isSome_iff_exists.mp hsome
      simp only [Option.map_some', hsid]
    · intro i c hi hnone
      obtain ⟨s, hs, hrest⟩ := hsugg c (List.getElem?_mem hi) hnone
      refine ⟨s, ?_, hrest⟩
      rw [← hdb2, List.getElem?_map, hi]
      simp only [Option.map_some', hnone, hs]
    · have hmiss2 : (stableIdScan db2).missing_ids = [] :=
        scanFold_missing_nil db2 ⟨[], [], [], 0⟩ hall2
      have hassign3 : stableIdAssignments (stableIdScan db2) = some (0, []) := by
        rw [stableIdAssignments, hmiss2]
        rfl
      rw [validate_stable_ids]
      simp only [hassign3, Nat.add_zero, Option.some.injEq, Prod.mk.injEq]
      refine ⟨trivial, mapSelf_eq _ db2 (fun c hc => ?_)⟩
      obtain ⟨sid, hsid⟩ := Option.isSome_iff_exists.mp (hall2 c hc)
      simp only [hsid]

theorem C8_counterexample :
    validate_stable_ids [fixIdA, fixIdB, fixIdC]
      = some (2, [fixIdA, { fixIdB with stable_id := some 1 },
          { fixIdC with stable_id := some 1 }]) ∧
    fixIdB.machine_name ≠ fixIdC.machine_name ∧
    (stableIdScan [fixIdA, { fixIdB with stable_id := some 1 },
      { fixIdC with stable_id := some 1 }]).errors = 1 :=
  ⟨rfl, by decide, rfl⟩

theorem C8_stable_ids_witness :
    validate_stable_ids [fixIdA, fixIdB, fixIdC]
      = some (2, [fixIdA, { fixIdB with stable_id := some 1 },
          { fixIdC with stable_id := some 1 }]) ∧
    (∀ c2 ∈ [fixIdA, { fixIdB with stable_id := some 1 },
      { fixIdC with stable_id := some 1 }], c2.stable_id.isSome) ∧
    validate_stable_ids [fixIdA, { fixIdB with stable_id := some 1 },
        { fixIdC with stable_id := some 1 }]
      = some ((stableIdScan [fixIdA, { fixIdB with stable_id := some 1 },
          { fixIdC with stable_id := some 1 }]).errors,
          [fixIdA, { fixIdB with stable_id := some 1 },
            { fixIdC with stable_id := some 1 }]) :=
  ⟨rfl,
    (C8_stable_ids [fixIdA, fixIdB, fixIdC] 2
      [fixIdA, { fixIdB with stable_id := some 1 },
        { fixIdC with stable_id := some 1 }] rfl).2.2.2.1,
    (C8_stable_ids [fixIdA, fixIdB, fixIdC] 2
      [fixIdA, { fixIdB with stable_id := some 1 },
        { fixIdC with stable_id := some 1 }] rfl).2.2.2.2⟩
